import Mathlib

/-!
# Webserver: the connection-multiplexing engine

A shallow embedding of `code/server/webserver.cpp`, `code/server/webserver.h`
and `code/pool/threadpool.h`.

* Machine integers (`int`, `uint32_t`) are `Int` / `Nat`; the only arithmetic the
  engine does on them is comparison and bitwise and/or of constants below `2^32`,
  so no wrap-around can occur.
* A `HttpConn*` is modelled by the key of the entry of `users_` it points to
  (pointers are only ever taken as `&users_[fd]`, and entries are never erased).
* Every call that leaves `WebServer` (system calls, `Epoller`, `HeapTimer`,
  `HttpConn`, `ThreadPool::AddTask`) is recorded, oldest first, in the field
  `trace` of the server state; results of such calls are inputs of the model.
* A failing `assert` aborts the process: the functions that can hit one
  return `Option`, with `none` for the abort. These are the
  `assert(users_.count(fd) > 0)` of `Start` and the `assert(fd > 0)` of
  `SetFdNonblock(listenFd_)`; `assert(client)` holds for every `&users_[fd]`, and
  `DealListen_` returns on `fd <= 0` before `SendError_` or `AddClient_` assert
  `fd > 0`.
* `runSteps` runs handlers to completion (whole loop iterations of the dispatcher
  and whole worker tasks, in any order). The section on concurrent executions
  interleaves the single calls of the dispatcher and of the worker tasks in any
  order.
* Logging (`LOG_*`), the SQL pool and `srcDir_` are not modelled.
-/

namespace Webserver

/-! ## Constants (`<sys/epoll.h>`, `<errno.h>`, `webserver.h`) -/

def EPOLLIN : Nat := 0x001
def EPOLLOUT : Nat := 0x004
def EPOLLERR : Nat := 0x008
def EPOLLHUP : Nat := 0x010
def EPOLLRDHUP : Nat := 0x2000
def EPOLLONESHOT : Nat := 0x40000000
def EPOLLET : Nat := 0x80000000
def EAGAIN : Int := 11

/-- Constant `WebServer::MAX_FD` of `webserver.h`. -/
def MAX_FD : Int := 65536

/-! ## Thread pool (`threadpool.h`) -/

/-- Struct `ThreadPool::Pool`, without the mutex and the condition variable:
the closed flag and the FIFO task queue (front of the queue = head of the list). -/
structure Pool (α : Type) where
  isClosed : Bool
  tasks : List α
  deriving DecidableEq, Repr

/-- Constructor of `ThreadPool`: `make_shared<Pool>()` value-initialises the pool,
so the flag is clear and the queue empty. -/
def ThreadPool.init {α : Type} : Pool α := { isClosed := false, tasks := [] }

/-- Method `ThreadPool::AddTask`: `tasks.emplace(task)` at the back of the queue. -/
def ThreadPool.AddTask {α : Type} (p : Pool α) (task : α) : Pool α :=
  { p with tasks := p.tasks ++ [task] }

/-- Destructor `ThreadPool::~ThreadPool`: sets `isClosed` (and notifies all
workers); the queue is not touched. -/
def ThreadPool.dtor {α : Type} (p : Pool α) : Pool α :=
  { p with isClosed := true }

/-- What one pass through the body of a worker's `while(true)` did. -/
inductive WorkerStep (α : Type) where
  | ran (task : α)
  | exited
  | waiting
  deriving DecidableEq, Repr

/-- One pass through the body of the worker loop (lines 21-31 of `threadpool.h`):
a non-empty queue is served first, the closed flag is looked at only when the
queue is empty, and otherwise the worker waits on the condition variable. -/
def workerIter {α : Type} (p : Pool α) : Pool α × WorkerStep α :=
  match p.tasks with
  | task :: rest => ({ p with tasks := rest }, WorkerStep.ran task)
  | [] => if p.isClosed then (p, WorkerStep.exited) else (p, WorkerStep.waiting)

/-- The worker loop run by one worker with nobody else touching the pool:
`fuel` bounds the number of passes; the result is the pool, the tasks executed
(in execution order) and whether the worker left the loop through `break`.
A worker that reaches `cond.wait` stays blocked (nobody notifies). -/
def workerLoop {α : Type} : Nat → Pool α → List α → Pool α × List α × Bool
  | 0, p, done => (p, done, false)
  | fuel + 1, p, done =>
    match workerIter p with
    | (p1, WorkerStep.ran task) => workerLoop fuel p1 (done ++ [task])
    | (p1, WorkerStep.exited) => (p1, done, true)
    | (p1, WorkerStep.waiting) => (p1, done, false)

/-! ## Server state -/

/-- A task handed to the pool by `DealRead_` / `DealWrite_`:
`std::bind(&WebServer::OnRead_, this, client)` or the same with `OnWrite_`. -/
inductive WorkItem where
  | onRead (client : Int)
  | onWrite (client : Int)
  deriving DecidableEq, Repr

/-- Calls leaving `WebServer`, as recorded in the trace. `AddFd` is a call of
`epoller_->AddFd` that succeeded or whose result the code does not look at;
`AddFdFailed` is one that reported failure to `InitSocket_`, the only caller that
tests the result. -/
inductive Action where
  | socket (ret : Int)
  | setsockopt (fd : Int) (opt : String) (val : Int) (ret : Int)
  | bind (fd : Int) (port : Int) (ret : Int)
  | listen (fd : Int) (backlog : Int) (ret : Int)
  | fcntlNonblock (fd : Int)
  | accept (ret : Int)
  | send (fd : Int) (info : String)
  | close (fd : Int)
  | AddFd (fd : Int) (events : Nat)
  | AddFdFailed (fd : Int) (events : Nat)
  | ModFd (fd : Int) (events : Nat)
  | DelFd (fd : Int)
  | Wait (timeoutMS : Int)
  | GetNextTick
  | timerExpire (fd : Int)
  | timerAdd (fd : Int) (timeout : Int)
  | timerAdjust (fd : Int) (timeout : Int)
  | connInit (fd : Int)
  | connRead (fd : Int)
  | connWrite (fd : Int)
  | connProcess (fd : Int)
  | connClose (fd : Int)
  | AddTask (task : WorkItem)
  deriving DecidableEq, Repr

/-- The part of `HttpConn` the engine relies on: the descriptor returned by
`GetFd()` and whether the connection has been closed. -/
structure HttpConn where
  fd_ : Int
  isClose_ : Bool
  deriving DecidableEq, Repr

/-- Class `WebServer` (`webserver.h`), together with the two static members of
`HttpConn` it reads and writes (`userCount`, `isET`) and the trace. -/
structure WebServer where
  port_ : Int
  openLinger_ : Bool
  timeoutMS_ : Int
  isClose_ : Bool
  listenFd_ : Int
  listenEvent_ : Nat
  connEvent_ : Nat
  threadpool_ : Pool WorkItem
  users_ : List (Int × HttpConn)
  userCount : Int
  isET : Bool
  trace : List Action
  deriving DecidableEq, Repr

/-- Appends one call to the trace. -/
def WebServer.emit (s : WebServer) (a : Action) : WebServer :=
  { s with trace := s.trace ++ [a] }

/-- Lookup `users_.find(fd)`. -/
def usersFind : List (Int × HttpConn) → Int → Option HttpConn
  | [], _ => none
  | (k, c) :: rest, fd => if k = fd then some c else usersFind rest fd

/-- Value of `users_.count(fd)`. -/
def usersCount (users : List (Int × HttpConn)) (fd : Int) : Nat :=
  match usersFind users fd with
  | some _ => 1
  | none => 0

/-- Store through `users_[fd]`: overwrites the entry of `fd`, inserting it if absent. -/
def usersSet : List (Int × HttpConn) → Int → HttpConn → List (Int × HttpConn)
  | [], fd, c => [(fd, c)]
  | (k, d) :: rest, fd, c =>
    if k = fd then (k, c) :: rest else (k, d) :: usersSet rest fd c

/-! ## `WebServer::InitEventMode_` -/

/-- Method `WebServer::InitEventMode_`: the `switch` on `trigMode` with its
`default` branch, then the assignment of the static `HttpConn::isET`. -/
def InitEventMode_ (s : WebServer) (trigMode : Int) : WebServer :=
  let s0 := { s with listenEvent_ := EPOLLRDHUP, connEvent_ := EPOLLONESHOT ||| EPOLLRDHUP }
  let s1 :=
    if trigMode = 0 then s0
    else if trigMode = 1 then { s0 with connEvent_ := s0.connEvent_ ||| EPOLLET }
    else if trigMode = 2 then { s0 with listenEvent_ := s0.listenEvent_ ||| EPOLLET }
    else { s0 with listenEvent_ := s0.listenEvent_ ||| EPOLLET,
                   connEvent_ := s0.connEvent_ ||| EPOLLET }
  { s1 with isET := decide (s1.connEvent_ &&& EPOLLET ≠ 0) }

/-! ## Collaborators -/

/-- Value of `client->GetFd()`. A pointer that refers to no entry of `users_`
cannot arise in the program; the model reads `-1` there. -/
def GetFd (s : WebServer) (client : Int) : Int :=
  match usersFind s.users_ client with
  | some c => c.fd_
  | none => -1

/-- Modelled from the spec: `HttpConn::init(fd, addr)`, defined in
`http/httpconn.cpp`, outside the files embedded here. Called as `users_[fd].init(fd, addr)`: the entry of `fd` is
created or reused, it records the descriptor and is open, and the new user is
counted in `userCount` (the spec keeps `userCount` equal to the number of live
connections). -/
def HttpConn.init (s : WebServer) (client : Int) (fd : Int) : WebServer :=
  { s with users_ := usersSet s.users_ client { fd_ := fd, isClose_ := false },
           userCount := s.userCount + 1,
           trace := s.trace ++ [Action.connInit fd] }

/-- Modelled from the spec: `HttpConn::Close()`, defined in
`http/httpconn.cpp`, outside the files embedded here. It closes the descriptor of the connection; a connection is
closed once, and closing it takes the user out of `userCount`. The object is
owned by `users_` and has no access to the table itself, to the reactor or to the
timer. -/
def HttpConn.Close (s : WebServer) (client : Int) : WebServer :=
  let s1 := s.emit (Action.connClose (GetFd s client))
  match usersFind s.users_ client with
  | some c =>
    if c.isClose_ then s1
    else { s1 with users_ := usersSet s1.users_ client { c with isClose_ := true },
                   userCount := s1.userCount - 1 }
  | none => s1

/-- Modelled from the spec: effect of one call on the set of descriptors
registered with the `Epoller` (`register` adds, `unregister` removes). -/
def regStep (fds : List Int) : Action → List Int
  | Action.AddFd fd _ => if fd ∈ fds then fds else fd :: fds
  | Action.DelFd fd => fds.erase fd
  | _ => fds

/-- Descriptors registered with the `Epoller` after the calls of a trace. -/
def registeredFds (tr : List Action) : List Int :=
  tr.foldl regStep []

/-- Modelled from the spec: the descriptors that have a node in the `HeapTimer`
after the calls of a trace (`add` inserts the node of a descriptor, an expiry
pops it; the engine never calls a cancel operation). -/
def timerNodes (tr : List Action) : List Int :=
  tr.foldl (fun fds a =>
    match a with
    | Action.timerAdd fd _ => if fd ∈ fds then fds else fd :: fds
    | Action.timerExpire fd => fds.erase fd
    | _ => fds) []

/-! ## Connection handling (`webserver.cpp`) -/

/-- Method `WebServer::SendError_`: `send` the text, then `close(fd)`. -/
def SendError_ (s : WebServer) (fd : Int) (info : String) : WebServer :=
  (s.emit (Action.send fd info)).emit (Action.close fd)

/-- Method `WebServer::CloseConn_`: `epoller_->DelFd(client->GetFd())`, then
`client->Close()`. -/
def CloseConn_ (s : WebServer) (client : Int) : WebServer :=
  HttpConn.Close (s.emit (Action.DelFd (GetFd s client))) client

/-- Method `WebServer::AddClient_`. The timer callback bound at `timer_->add` is
`CloseConn_` on `&users_[fd]`. -/
def AddClient_ (s : WebServer) (fd : Int) : WebServer :=
  let s1 := HttpConn.init s fd fd
  let s2 := if s1.timeoutMS_ > 0 then s1.emit (Action.timerAdd fd s1.timeoutMS_) else s1
  let s3 := s2.emit (Action.AddFd fd (EPOLLIN ||| s2.connEvent_))
  s3.emit (Action.fcntlNonblock fd)

/-- Method `WebServer::DealListen_`. The list gives the results of the successive
`accept` calls; once it is used up `accept` reports that nothing is pending
(`-1`). The `do ... while(listenEvent_ & EPOLLET)` loop is the recursion. -/
def DealListen_ (s : WebServer) : List Int → WebServer
  | [] => s.emit (Action.accept (-1))
  | fd :: rest =>
    let s1 := s.emit (Action.accept fd)
    if fd ≤ 0 then s1
    else if s1.userCount ≥ MAX_FD then SendError_ s1 fd "Server busy!"
    else
      let s2 := AddClient_ s1 fd
      if s2.listenEvent_ &&& EPOLLET ≠ 0 then DealListen_ s2 rest else s2

/-- Method `WebServer::ExtentTime_`. -/
def ExtentTime_ (s : WebServer) (client : Int) : WebServer :=
  if s.timeoutMS_ > 0 then s.emit (Action.timerAdjust (GetFd s client) s.timeoutMS_) else s

/-- Method `WebServer::DealRead_`: extend the timer, then hand `OnRead_` to the pool. -/
def DealRead_ (s : WebServer) (client : Int) : WebServer :=
  let s1 := ExtentTime_ s client
  { s1 with threadpool_ := ThreadPool.AddTask s1.threadpool_ (WorkItem.onRead client),
            trace := s1.trace ++ [Action.AddTask (WorkItem.onRead client)] }

/-- Method `WebServer::DealWrite_`: extend the timer, then hand `OnWrite_` to the pool. -/
def DealWrite_ (s : WebServer) (client : Int) : WebServer :=
  let s1 := ExtentTime_ s client
  { s1 with threadpool_ := ThreadPool.AddTask s1.threadpool_ (WorkItem.onWrite client),
            trace := s1.trace ++ [Action.AddTask (WorkItem.onWrite client)] }

/-- Method `WebServer::OnProcess`; `processRet` is what `client->process()` returns. -/
def OnProcess (s : WebServer) (client : Int) (processRet : Bool) : WebServer :=
  let s1 := s.emit (Action.connProcess (GetFd s client))
  if processRet then s1.emit (Action.ModFd (GetFd s1 client) (s1.connEvent_ ||| EPOLLOUT))
  else s1.emit (Action.ModFd (GetFd s1 client) (s1.connEvent_ ||| EPOLLIN))

/-- Method `WebServer::OnRead_`; `ret` and `readErrno` are the return value of
`client->read(&readErrno)` and the value of `readErrno` after the call. -/
def OnRead_ (s : WebServer) (client : Int) (ret readErrno : Int) (processRet : Bool) :
    WebServer :=
  let s1 := s.emit (Action.connRead (GetFd s client))
  if ret ≤ 0 ∧ readErrno ≠ EAGAIN then CloseConn_ s1 client
  else OnProcess s1 client processRet

/-- Method `WebServer::OnWrite_`; `ret` and `writeErrno` come from
`client->write(&writeErrno)`, `toWriteBytes` and `keepAlive` are what
`client->ToWriteBytes()` and `client->IsKeepAlive()` return after it. -/
def OnWrite_ (s : WebServer) (client : Int) (ret writeErrno : Int) (toWriteBytes : Nat)
    (keepAlive processRet : Bool) : WebServer :=
  let s1 := s.emit (Action.connWrite (GetFd s client))
  if toWriteBytes = 0 then
    if keepAlive then OnProcess s1 client processRet
    else CloseConn_ s1 client
  else if ret < 0 then
    if writeErrno = EAGAIN then
      s1.emit (Action.ModFd (GetFd s1 client) (s1.connEvent_ ||| EPOLLOUT))
    else CloseConn_ s1 client
  else CloseConn_ s1 client

/-! ## Start-up and shutdown -/

/-- Results of the system calls and of `epoller_->AddFd` made by `InitSocket_`. -/
structure SockEnv where
  socketRet : Int
  lingerRet : Int
  reuseRet : Int
  bindRet : Int
  listenRet : Int
  addFdRet : Bool
  deriving DecidableEq, Repr

/-- Method `WebServer::InitSocket_`; `fd` is the value `socket` stores in
`listenFd_`. The result is `none` when the `assert(fd > 0)` of
`SetFdNonblock(listenFd_)` fails. -/
def InitSocket_ (s : WebServer) (env : SockEnv) : Option (Bool × WebServer) :=
  if s.port_ > 65535 ∨ s.port_ < 1024 then some (false, s)
  else
    let fd := env.socketRet
    let s1 := { s with listenFd_ := fd }.emit (Action.socket fd)
    if fd < 0 then some (false, s1)
    else
      let s2 := s1.emit (Action.setsockopt fd "SO_LINGER"
        (if s.openLinger_ then 1 else 0) env.lingerRet)
      if env.lingerRet < 0 then some (false, s2.emit (Action.close fd))
      else
        let s3 := s2.emit (Action.setsockopt fd "SO_REUSEADDR" 1 env.reuseRet)
        if env.reuseRet = -1 then some (false, s3.emit (Action.close fd))
        else
          let s4 := s3.emit (Action.bind fd s.port_ env.bindRet)
          if env.bindRet < 0 then some (false, s4.emit (Action.close fd))
          else
            let s5 := s4.emit (Action.listen fd 6 env.listenRet)
            if env.listenRet < 0 then some (false, s5.emit (Action.close fd))
            else
              let s6 := s5.emit
                (if env.addFdRet then Action.AddFd fd (s.listenEvent_ ||| EPOLLIN)
                 else Action.AddFdFailed fd (s.listenEvent_ ||| EPOLLIN))
              if env.addFdRet = false then some (false, s6.emit (Action.close fd))
              else if fd > 0 then some (true, s6.emit (Action.fcntlNonblock fd))
              else none

/-- Constructor `WebServer::WebServer`. `listenFd0` is the indeterminate value the
member `listenFd_` holds until `InitSocket_` assigns it. -/
def WebServer.ctor (port trigMode timeoutMS : Int) (OptLinger : Bool)
    (listenFd0 : Int) (env : SockEnv) : Option WebServer :=
  let s0 : WebServer :=
    { port_ := port, openLinger_ := OptLinger, timeoutMS_ := timeoutMS, isClose_ := false,
      listenFd_ := listenFd0, listenEvent_ := 0, connEvent_ := 0,
      threadpool_ := ThreadPool.init, users_ := [], userCount := 0, isET := false,
      trace := [] }
  let s1 := InitEventMode_ s0 trigMode
  match InitSocket_ s1 env with
  | none => none
  | some (ok, s2) => some (if ok then s2 else { s2 with isClose_ := true })

/-- Body of the destructor `WebServer::~WebServer`: `close(listenFd_)`, then
`isClose_ = true`. -/
def WebServer.dtor (s : WebServer) : WebServer :=
  { s.emit (Action.close s.listenFd_) with isClose_ := true }

/-! ## Event loop -/

/-- Ready event `(descriptor, event-mask)` returned by the reactor. For an
event on the listening descriptor, `accepts` gives the results of the `accept`
calls made while it is handled. -/
structure ReadyEvent where
  fd : Int
  events : Nat
  accepts : List Int
  deriving DecidableEq, Repr

/-- Inputs of one iteration of the loop of `Start`: the descriptors whose timer
nodes `GetNextTick` finds expired, the value `GetNextTick` returns, and the
events `epoller_->Wait` delivers. -/
structure Tick where
  expired : List Int
  nextTick : Int
  ready : List ReadyEvent
  deriving DecidableEq, Repr

/-- Modelled from the spec: `HeapTimer::GetNextTick()`, defined in
`timer/heaptimer.cpp`, outside the files embedded here. It pops the expired
nodes and invokes the callback of each, which `AddClient_` bound to `CloseConn_`
on the connection of that descriptor; which nodes have expired is decided by the
clock and given as `expired`. -/
def GetNextTick (s : WebServer) (expired : List Int) : WebServer :=
  expired.foldl (fun st fd =>
    if fd ∈ timerNodes st.trace then CloseConn_ (st.emit (Action.timerExpire fd)) fd
    else st) (s.emit Action.GetNextTick)

/-- Handling of one ready event: the body of the `for` loop of `Start`. The result
is `none` when `assert(users_.count(fd) > 0)` fails. -/
def handleEvent (s : WebServer) (ev : ReadyEvent) : Option WebServer :=
  if ev.fd = s.listenFd_ then some (DealListen_ s ev.accepts)
  else if ev.events &&& (EPOLLRDHUP ||| EPOLLHUP ||| EPOLLERR) ≠ 0 then
    if usersCount s.users_ ev.fd > 0 then some (CloseConn_ s ev.fd) else none
  else if ev.events &&& EPOLLIN ≠ 0 then
    if usersCount s.users_ ev.fd > 0 then some (DealRead_ s ev.fd) else none
  else if ev.events &&& EPOLLOUT ≠ 0 then
    if usersCount s.users_ ev.fd > 0 then some (DealWrite_ s ev.fd) else none
  else some s

/-- The `for` loop of `Start` over the events of one `Wait`. -/
def handleEvents (s : WebServer) : List ReadyEvent → Option WebServer
  | [] => some s
  | ev :: rest =>
    match handleEvent s ev with
    | none => none
    | some s1 => handleEvents s1 rest

/-- One iteration of the `while(!isClose_)` loop of `Start`; `timeMS` is the local
variable of `Start`, returned with its new value. -/
def loopBody (s : WebServer) (timeMS : Int) (t : Tick) : Option (WebServer × Int) :=
  let (s1, timeMS1) :=
    if s.timeoutMS_ > 0 then (GetNextTick s t.expired, t.nextTick) else (s, timeMS)
  match handleEvents (s1.emit (Action.Wait timeMS1)) t.ready with
  | none => none
  | some s2 => some (s2, timeMS1)

/-- The `while(!isClose_)` loop of `Start`, run over the inputs of its successive
iterations; the loop goes on for ever, so the result after the last input is the
state reached so far. -/
def StartLoop (s : WebServer) (timeMS : Int) : List Tick → Option WebServer
  | [] => some s
  | t :: rest =>
    if s.isClose_ then some s
    else
      match loopBody s timeMS t with
      | none => none
      | some (s1, timeMS1) => StartLoop s1 timeMS1 rest

/-- Method `WebServer::Start`: `timeMS` starts at `-1`. -/
def Start (s : WebServer) (ticks : List Tick) : Option WebServer :=
  StartLoop s (-1) ticks

/-! ## Whole-server executions -/

/-- Results of the calls a worker task makes on its connection. -/
structure ConnResult where
  ret : Int
  err : Int
  toWriteBytes : Nat
  keepAlive : Bool
  processRet : Bool
  deriving DecidableEq, Repr

/-- A worker takes the task at the front of the queue of `threadpool_` and runs it
(`OnRead_` or `OnWrite_` on the bound connection); nothing happens on an empty
queue. -/
def workerStep (s : WebServer) (r : ConnResult) : WebServer :=
  match workerIter s.threadpool_ with
  | (p, WorkerStep.ran (WorkItem.onRead client)) =>
    OnRead_ { s with threadpool_ := p } client r.ret r.err r.processRet
  | (p, WorkerStep.ran (WorkItem.onWrite client)) =>
    OnWrite_ { s with threadpool_ := p } client r.ret r.err r.toWriteBytes r.keepAlive
      r.processRet
  | (_, _) => s

/-- One step of an execution: an iteration of the loop of `Start` on the
dispatcher thread, or one task run by a worker. -/
inductive Step where
  | loop (t : Tick)
  | work (r : ConnResult)
  deriving DecidableEq, Repr

/-- An execution of the running server: loop iterations interleaved with worker
tasks, each handler running to completion. The second component is the local
`timeMS` of `Start`. -/
def runSteps (s : WebServer) (timeMS : Int) : List Step → Option (WebServer × Int)
  | [] => some (s, timeMS)
  | Step.loop t :: rest =>
    if s.isClose_ then runSteps s timeMS rest
    else
      match loopBody s timeMS t with
      | none => none
      | some (s1, timeMS1) => runSteps s1 timeMS1 rest
  | Step.work r :: rest => runSteps (workerStep s r) timeMS rest

/-! ## Trace properties -/

/-- Whether a call closes one of the given descriptors, directly with `close` or
through `HttpConn::Close`. -/
def closesOneOf (fds : List Int) : Action → Bool
  | Action.close fd => decide (fd ∈ fds)
  | Action.connClose fd => decide (fd ∈ fds)
  | _ => false

/-- Scan of a trace, given the descriptors registered before it, for a descriptor
that is closed while registered with the reactor. -/
def scanClose (fds : List Int) : List Action → Bool
  | [] => false
  | a :: rest => closesOneOf fds a || scanClose (regStep fds a) rest

/-- Whether some descriptor is closed while registered with the reactor in a trace
that starts with no registration. -/
def closedWhileRegistered (tr : List Action) : Bool :=
  scanClose [] tr

/-- Whether a call is a timer operation (`add`, `adjust`, `GetNextTick`, or an
expiry callback). -/
def isTimerOp : Action → Bool
  | Action.GetNextTick => true
  | Action.timerExpire _ => true
  | Action.timerAdd _ _ => true
  | Action.timerAdjust _ _ => true
  | _ => false

/-- Whether a call is an `epoller_->Wait` with a timeout other than `-1`. -/
def isBoundedWait : Action → Bool
  | Action.Wait t => decide (t ≠ -1)
  | _ => false

/-- Whether a call is a `HttpConn::Close`. -/
def isConnClose : Action → Bool
  | Action.connClose _ => true
  | _ => false

/-- Whether a call is a `close` made by the server itself. -/
def isRawClose : Action → Bool
  | Action.close _ => true
  | _ => false

/-- Whether a call is an `epoller_->DelFd`. -/
def isDelFd : Action → Bool
  | Action.DelFd _ => true
  | _ => false

/-- Calls the engine may make on their own when the idle timeout is `timeout`:
no `HttpConn::Close`, no `close`, no `DelFd`, and with `timeout <= 0` neither a
timer operation nor a `Wait` with a timeout other than `-1`. -/
def Allowed (timeout : Int) (a : Action) : Prop :=
  isConnClose a = false ∧ isRawClose a = false ∧ isDelFd a = false ∧
    (timeout ≤ 0 → isTimerOp a = false ∧ isBoundedWait a = false)

/-- Call sequences a handler of the running server makes, in its own order:
allowed calls, close blocks `DelFd fd, HttpConn::Close` on one descriptor
(`CloseConn_`), and refusal blocks `accept, send, close` on one accepted descriptor
(`DealListen_` with `SendError_`). -/
inductive Good (timeout : Int) : List Action → Prop where
  | nil : Good timeout []
  | cons (a : Action) (ext : List Action) :
      Allowed timeout a → Good timeout ext → Good timeout (a :: ext)
  | close (fd : Int) (ext : List Action) :
      Good timeout ext → Good timeout (Action.DelFd fd :: Action.connClose fd :: ext)
  | refuse (fd : Int) (info : String) (ext : List Action) :
      0 < fd → Good timeout ext →
      Good timeout (Action.accept fd :: Action.send fd info :: Action.close fd :: ext)

/-- State `r` comes from `s` by appending a good call sequence to the trace, with
the configured idle timeout unchanged. -/
def Ext (s r : WebServer) : Prop :=
  r.timeoutMS_ = s.timeoutMS_ ∧ ∃ ext, r.trace = s.trace ++ ext ∧ Good s.timeoutMS_ ext

/-! ## Concurrent executions -/

/-- First statement of `CloseConn_` (line 125): `epoller_->DelFd(client->GetFd())`.
The second statement, `client->Close()`, is `HttpConn.Close`. -/
def CloseConn_DelFd (s : WebServer) (client : Int) : WebServer :=
  s.emit (Action.DelFd (GetFd s client))

/-- A worker takes the `OnRead_` task at the front of the queue, its `read` reports
end of file or an error other than `EAGAIN`, and it runs `CloseConn_` up to and
including the `DelFd`: lines 187-189 and 125. The `client->Close()` of line 126 is
still to come. -/
def workerReadEof (s : WebServer) : WebServer :=
  match workerIter s.threadpool_ with
  | (p, WorkerStep.ran (WorkItem.onRead client)) =>
    CloseConn_DelFd ({ s with threadpool_ := p }.emit (Action.connRead (GetFd s client))) client
  | (_, _) => s

/-- Whether a call is one that only the dispatcher thread makes: `accept` or
`AddFd`. -/
def isDispatcherCall : Action → Bool
  | Action.accept _ => true
  | Action.AddFd _ _ => true
  | _ => false

/-- Call sequences the dispatcher thread can make once the server is constructed:
the calls of `GetNextTick` (made only with `timeoutMS_ > 0`), of `Wait` and of the
handling of one ready event, one handler after the other. Each handler starts in
an arbitrary state `s`, since the workers share the state with the dispatcher:
what a worker can change under a running handler is the task queue, `userCount`
and the closed flag of a connection, and every call sequence the handler can then
make is one it makes from some state. -/
inductive DispatcherCalls : List Action → Prop where
  | nil : DispatcherCalls []
  | tick (s : WebServer) (expired : List Int) (ext rest : List Action) :
      s.timeoutMS_ > 0 → (GetNextTick s expired).trace = s.trace ++ ext →
      DispatcherCalls rest → DispatcherCalls (ext ++ rest)
  | wait (timeMS : Int) (rest : List Action) :
      DispatcherCalls rest → DispatcherCalls (Action.Wait timeMS :: rest)
  | event (s r : WebServer) (ev : ReadyEvent) (ext rest : List Action) :
      handleEvent s ev = some r → r.trace = s.trace ++ ext →
      DispatcherCalls rest → DispatcherCalls (ext ++ rest)

/-- Call sequences of one worker task: the calls `workerStep` makes when the task
is taken in some state `s` with some results `r` of the calls on the connection. -/
def WorkerCalls (w : List Action) : Prop :=
  ∃ (s : WebServer) (r : ConnResult), (workerStep s r).trace = s.trace ++ w

/-- `Interleave d ws tr`: `tr` is made of calls of the dispatcher sequence `d` and
of the worker sequences `ws`, the calls of each thread in that thread's order and
the calls of different threads in any order. The execution may be observed at any
point: the threads need not have made all their calls. -/
inductive Interleave : List Action → List (List Action) → List Action → Prop where
  | stop (d : List Action) (ws : List (List Action)) : Interleave d ws []
  | disp (a : Action) (d : List Action) (ws : List (List Action)) (tr : List Action) :
      Interleave d ws tr → Interleave (a :: d) ws (a :: tr)
  | work (a : Action) (w d : List Action) (ws1 ws2 : List (List Action))
      (tr : List Action) :
      Interleave d (ws1 ++ w :: ws2) tr → Interleave d (ws1 ++ (a :: w) :: ws2) (a :: tr)

/-- Effect of one call on the list of descriptors with a `CloseConn_` in progress:
`DelFd` has been called and the `HttpConn::Close` that follows it in the same call
of `CloseConn_` has not been made yet (one entry per call in progress). -/
def pendStep (pend : List Int) : Action → List Int
  | Action.DelFd fd => fd :: pend
  | Action.connClose fd => pend.erase fd
  | _ => pend

/-- What the execution is assumed to respect at one call, given the registered
descriptors `fds` and the descriptors `pend` with a `CloseConn_` in progress:
`accept` does not return a descriptor that is registered, and no descriptor is
registered while a `CloseConn_` on the same descriptor number is in progress. -/
def envOK (fds pend : List Int) : Action → Bool
  | Action.accept fd => decide (fd ≤ 0) || decide (fd ∉ fds)
  | Action.AddFd fd _ => decide (fd ∉ pend)
  | _ => true

/-- Check of `envOK` at every call of a trace. -/
def scanEnv (fds pend : List Int) : List Action → Bool
  | [] => true
  | a :: rest => envOK fds pend a && scanEnv (regStep fds a) (pendStep pend a) rest

/-- Descriptor of the `HttpConn::Close` a call sequence starts with, if it starts
with one. -/
def headClose : List Action → List Int
  | Action.connClose fd :: _ => [fd]
  | _ => []

/-- Descriptors of the `HttpConn::Close` calls the sequences of a list start with. -/
def pendingOf : List (List Action) → List Int
  | [] => []
  | w :: ws => headClose w ++ pendingOf ws

/-- What is left of the dispatcher's calls at some point of an execution: whole
handler blocks, possibly after the rest of a block it is in the middle of. In the
middle of a refusal the accepted descriptor is not registered. -/
def DispatcherRest (t : Int) (fds : List Int) (d : List Action) : Prop :=
  Good t d ∨
  (∃ fd rest, d = Action.connClose fd :: rest ∧ Good t rest) ∨
  (∃ fd info rest, d = Action.send fd info :: Action.close fd :: rest ∧ fd ∉ fds ∧
    Good t rest) ∨
  (∃ fd rest, d = Action.close fd :: rest ∧ fd ∉ fds ∧ Good t rest)

/-- What is left of a worker's calls at some point of an execution. -/
def WorkerRest (t : Int) (w : List Action) : Prop :=
  (Good t w ∨ ∃ fd rest, w = Action.connClose fd :: rest ∧ Good t rest) ∧
    ∀ a ∈ w, isDispatcherCall a = false

/-- State `r` comes from `s` by appending calls a worker task makes. -/
def WorkerExt (s r : WebServer) : Prop :=
  ∃ ext, r.trace = s.trace ++ ext ∧ Good 1 ext ∧ ∀ a ∈ ext, isDispatcherCall a = false

/-! ## Sample inputs -/

/-- Start-up environment in which every call succeeds and `socket` returns 3. -/
def sampleEnv : SockEnv :=
  { socketRet := 3, lingerRet := 0, reuseRet := 0, bindRet := 0, listenRet := 0,
    addFdRet := true }

/-- State of a server started on port 8080 with trigger mode 1 and a 60 s idle
timeout, after it has accepted one connection on descriptor 5. -/
def sampleServer : WebServer :=
  { port_ := 8080, openLinger_ := false, timeoutMS_ := 60000, isClose_ := false,
    listenFd_ := 3, listenEvent_ := 0x2000, connEvent_ := 0xC0002000,
    threadpool_ := { isClosed := false, tasks := [] },
    users_ := [(5, { fd_ := 5, isClose_ := false })], userCount := 1, isET := true,
    trace := [Action.socket 3, Action.setsockopt 3 "SO_LINGER" 0 0,
      Action.setsockopt 3 "SO_REUSEADDR" 1 0, Action.bind 3 8080 0, Action.listen 3 6 0,
      Action.AddFd 3 0x2001, Action.fcntlNonblock 3, Action.accept 5, Action.connInit 5,
      Action.timerAdd 5 60000, Action.AddFd 5 0xC0002001, Action.fcntlNonblock 5] }

/-- The sample state with the user counter at `MAX_FD`. -/
def fullServer : WebServer :=
  { sampleServer with userCount := 65536 }

/-- The sample state with the idle timeout disabled and no timer node. -/
def untimedServer : WebServer :=
  { sampleServer with
    timeoutMS_ := 0,
    trace := [Action.socket 3, Action.setsockopt 3 "SO_LINGER" 0 0,
      Action.setsockopt 3 "SO_REUSEADDR" 1 0, Action.bind 3 8080 0, Action.listen 3 6 0,
      Action.AddFd 3 0x2001, Action.fcntlNonblock 3, Action.accept 5, Action.connInit 5,
      Action.AddFd 5 0xC0002001, Action.fcntlNonblock 5] }

/-- A short execution: the listener accepts descriptor 6, connection 5 becomes
readable while 6 hangs up, a worker reads and processes the request of 5, 5 becomes
writable, and a worker writes the whole response on a connection that is not
keep-alive. -/
def sampleSteps : List Step :=
  [Step.loop
    { expired := [], nextTick := 60000,
      ready := [{ fd := 3, events := 0x001, accepts := [6] }] },
   Step.loop
    { expired := [], nextTick := 59000,
      ready := [{ fd := 5, events := 0x001, accepts := [] },
                { fd := 6, events := 0x2001, accepts := [] }] },
   Step.work
    { ret := 120, err := 0, toWriteBytes := 0, keepAlive := false, processRet := true },
   Step.loop
    { expired := [], nextTick := 58000,
      ready := [{ fd := 5, events := 0x004, accepts := [] }] },
   Step.work
    { ret := 300, err := 0, toWriteBytes := 0, keepAlive := false, processRet := true }]

/-- State right after the constructor ran on port 8080 with trigger mode 1, a
60 s idle timeout and `sampleEnv`. -/
def startedServer : WebServer :=
  { port_ := 8080, openLinger_ := false, timeoutMS_ := 60000, isClose_ := false,
    listenFd_ := 3, listenEvent_ := 0x2000, connEvent_ := 0xC0002000,
    threadpool_ := { isClosed := false, tasks := [] },
    users_ := [], userCount := 0, isET := true,
    trace := [Action.socket 3, Action.setsockopt 3 "SO_LINGER" 0 0,
      Action.setsockopt 3 "SO_REUSEADDR" 1 0, Action.bind 3 8080 0, Action.listen 3 6 0,
      Action.AddFd 3 0x2001, Action.fcntlNonblock 3] }

/-- State of `untimedServer` after the execution `sampleSteps`. -/
def untimedFinal : WebServer :=
  { untimedServer with
    users_ := [(5, { fd_ := 5, isClose_ := true }), (6, { fd_ := 6, isClose_ := true })],
    userCount := 0,
    trace := untimedServer.trace ++
      [Action.Wait (-1), Action.accept 6, Action.connInit 6, Action.AddFd 6 0xC0002001,
        Action.fcntlNonblock 6, Action.Wait (-1), Action.AddTask (WorkItem.onRead 5),
        Action.DelFd 6, Action.connClose 6, Action.connRead 5, Action.connProcess 5,
        Action.ModFd 5 0xC0002004, Action.Wait (-1), Action.AddTask (WorkItem.onWrite 5),
        Action.connWrite 5, Action.DelFd 5, Action.connClose 5] }

/-- Inputs of four loop iterations: the listener accepts descriptor 5, connection 5
becomes readable, connection 5 becomes writable, and an iteration without event. -/
def witnessTicks : List Tick :=
  [{ expired := [], nextTick := 60000,
     ready := [{ fd := 3, events := 0x001, accepts := [5] }] },
   { expired := [], nextTick := 59000,
     ready := [{ fd := 5, events := 0x001, accepts := [] }] },
   { expired := [], nextTick := 58000,
     ready := [{ fd := 5, events := 0x004, accepts := [] }] },
   { expired := [], nextTick := 57000, ready := [] }]

/-- Two loop iterations of the race: the listener accepts descriptor 5, then
connection 5 becomes readable and `OnRead_` is queued. -/
def raceSteps : List Step :=
  [Step.loop
    { expired := [], nextTick := 1,
      ready := [{ fd := 3, events := 0x001, accepts := [5] }] },
   Step.loop
    { expired := [], nextTick := 1,
      ready := [{ fd := 5, events := 0x001, accepts := [] }] }]

/-- Third loop iteration of the race: the timer node of descriptor 5 has expired,
and the listener accepts a new connection, which gets the descriptor number 5 that
the expiry callback has just closed. -/
def raceTick : Tick :=
  { expired := [5], nextTick := 1,
    ready := [{ fd := 3, events := 0x001, accepts := [5] }] }

/-- Calls the dispatcher makes over the iterations `witnessTicks`. -/
def witnessDispatcher : List Action :=
  [Action.GetNextTick, Action.Wait 60000, Action.accept 5, Action.connInit 5,
    Action.timerAdd 5 60000, Action.AddFd 5 0xC0002001, Action.fcntlNonblock 5,
    Action.GetNextTick, Action.Wait 59000, Action.timerAdjust 5 60000,
    Action.AddTask (WorkItem.onRead 5),
    Action.GetNextTick, Action.Wait 58000, Action.timerAdjust 5 60000,
    Action.AddTask (WorkItem.onWrite 5),
    Action.GetNextTick, Action.Wait 57000]

/-- Calls of two worker tasks: an `OnRead_` whose request is processed, and an
`OnWrite_` whose write fails with `ECONNRESET` (104) and closes the connection. -/
def witnessWorkers : List (List Action) :=
  [[Action.connRead 5, Action.connProcess 5, Action.ModFd 5 0xC0002004],
   [Action.connWrite 5, Action.DelFd 5, Action.connClose 5]]

/-- An interleaving of `witnessDispatcher` and `witnessWorkers`: the dispatcher
starts its third iteration while the first task is between `process` and `ModFd`,
and runs its fourth iteration between the `DelFd` and the `Close` of the second
task. -/
def witnessTrace : List Action :=
  [Action.GetNextTick, Action.Wait 60000, Action.accept 5, Action.connInit 5,
    Action.timerAdd 5 60000, Action.AddFd 5 0xC0002001, Action.fcntlNonblock 5,
    Action.GetNextTick, Action.Wait 59000, Action.timerAdjust 5 60000,
    Action.AddTask (WorkItem.onRead 5),
    Action.connRead 5, Action.connProcess 5,
    Action.GetNextTick,
    Action.ModFd 5 0xC0002004,
    Action.Wait 58000, Action.timerAdjust 5 60000, Action.AddTask (WorkItem.onWrite 5),
    Action.connWrite 5, Action.DelFd 5,
    Action.GetNextTick, Action.Wait 57000,
    Action.connClose 5]

/-- Trace of the race: a server with a 1 ms idle timeout accepts descriptor 5 and
queues `OnRead_`; the worker reads end of file and calls `DelFd` in `CloseConn_`;
before it reaches `client->Close()`, the dispatcher runs the expiry callback of 5
(which closes the descriptor), accepts a new connection that gets the number 5
again and registers it; then the worker's `client->Close()` closes descriptor 5. -/
def raceTrace : List Action :=
  [Action.socket 3, Action.setsockopt 3 "SO_LINGER" 0 0,
    Action.setsockopt 3 "SO_REUSEADDR" 1 0, Action.bind 3 8080 0, Action.listen 3 6 0,
    Action.AddFd 3 0x2001, Action.fcntlNonblock 3,
    Action.GetNextTick, Action.Wait 1, Action.accept 5, Action.connInit 5,
    Action.timerAdd 5 1, Action.AddFd 5 0xC0002001, Action.fcntlNonblock 5,
    Action.GetNextTick, Action.Wait 1, Action.timerAdjust 5 1,
    Action.AddTask (WorkItem.onRead 5),
    Action.connRead 5, Action.DelFd 5,
    Action.GetNextTick, Action.timerExpire 5, Action.DelFd 5, Action.connClose 5,
    Action.Wait 1, Action.accept 5, Action.connInit 5, Action.timerAdd 5 1,
    Action.AddFd 5 0xC0002001, Action.fcntlNonblock 5,
    Action.connClose 5]

/-! ## Basic facts -/

theorem lor_eq_zero_iff (a b : Nat) : a ||| b = 0 ↔ a = 0 ∧ b = 0 := by
  constructor
  · intro h
    have hb : ∀ i, (a ||| b).testBit i = false := by simp [h]
    constructor
    · apply Nat.eq_of_testBit_eq
      intro i
      have := hb i
      simp [Nat.testBit_or] at this
      simp [this.1]
    · apply Nat.eq_of_testBit_eq
      intro i
      have := hb i
      simp [Nat.testBit_or] at this
      simp [this.2]
  · rintro ⟨rfl, rfl⟩
    rfl

theorem land_hangup_ne_zero (x : Nat) :
    x &&& (EPOLLRDHUP ||| EPOLLHUP ||| EPOLLERR) ≠ 0 ↔
      (x &&& EPOLLRDHUP ≠ 0 ∨ x &&& EPOLLHUP ≠ 0 ∨ x &&& EPOLLERR ≠ 0) := by
  rw [Nat.and_or_distrib_left, Nat.and_or_distrib_left, Ne, lor_eq_zero_iff, lor_eq_zero_iff]
  tauto

@[simp]
theorem emit_trace (s : WebServer) (a : Action) :
    (s.emit a).trace = s.trace ++ [a] := rfl

@[simp]
theorem emit_isClose (s : WebServer) (a : Action) :
    (s.emit a).isClose_ = s.isClose_ := rfl

@[simp]
theorem emit_users (s : WebServer) (a : Action) : (s.emit a).users_ = s.users_ := rfl

@[simp]
theorem emit_timeoutMS (s : WebServer) (a : Action) :
    (s.emit a).timeoutMS_ = s.timeoutMS_ := rfl

@[simp]
theorem emit_connEvent (s : WebServer) (a : Action) :
    (s.emit a).connEvent_ = s.connEvent_ := rfl

@[simp]
theorem emit_threadpool (s : WebServer) (a : Action) :
    (s.emit a).threadpool_ = s.threadpool_ := rfl

@[simp]
theorem emit_userCount (s : WebServer) (a : Action) :
    (s.emit a).userCount = s.userCount := rfl

@[simp]
theorem GetFd_emit (s : WebServer) (a : Action) (client : Int) :
    GetFd (s.emit a) client = GetFd s client := rfl

theorem Close_trace (s : WebServer) (client : Int) :
    (HttpConn.Close s client).trace = s.trace ++ [Action.connClose (GetFd s client)] := by
  unfold HttpConn.Close
  cases h : usersFind s.users_ client with
  | none => simp
  | some c => by_cases hc : c.isClose_ = true <;> simp [hc]

theorem CloseConn_trace (s : WebServer) (client : Int) :
    (CloseConn_ s client).trace =
      s.trace ++ [Action.DelFd (GetFd s client), Action.connClose (GetFd s client)] := by
  simp [CloseConn_, Close_trace]

theorem Close_threadpool (s : WebServer) (client : Int) :
    (HttpConn.Close s client).threadpool_ = s.threadpool_ := by
  unfold HttpConn.Close
  cases h : usersFind s.users_ client with
  | none => simp
  | some c => by_cases hc : c.isClose_ = true <;> simp [hc]

theorem OnProcess_trace (s : WebServer) (client : Int) (processRet : Bool) :
    (OnProcess s client processRet).trace =
      s.trace ++ [Action.connProcess (GetFd s client),
        Action.ModFd (GetFd s client)
          (s.connEvent_ ||| (if processRet then EPOLLOUT else EPOLLIN))] := by
  cases processRet <;> simp [OnProcess]

/-! ## Claims -/

/-- C10: `InitEventMode_` maps trigger mode 0 to level-triggered listener and
connections, 1 to edge-triggered connections only, 2 to an edge-triggered listener
only and 3 to both edge-triggered; for every mode `connEvent_` has `EPOLLONESHOT`
and `EPOLLRDHUP`, `listenEvent_` has `EPOLLRDHUP` and not `EPOLLONESHOT`, and
`HttpConn::isET` holds exactly when `connEvent_` has `EPOLLET`. -/
theorem InitEventMode_mapping (s : WebServer) :
    ((InitEventMode_ s 0).listenEvent_ &&& EPOLLET = 0 ∧
      (InitEventMode_ s 0).connEvent_ &&& EPOLLET = 0) ∧
    ((InitEventMode_ s 1).listenEvent_ &&& EPOLLET = 0 ∧
      (InitEventMode_ s 1).connEvent_ &&& EPOLLET ≠ 0) ∧
    ((InitEventMode_ s 2).listenEvent_ &&& EPOLLET ≠ 0 ∧
      (InitEventMode_ s 2).connEvent_ &&& EPOLLET = 0) ∧
    ((InitEventMode_ s 3).listenEvent_ &&& EPOLLET ≠ 0 ∧
      (InitEventMode_ s 3).connEvent_ &&& EPOLLET ≠ 0) ∧
    ∀ trigMode : Int,
      (InitEventMode_ s trigMode).connEvent_ &&& EPOLLONESHOT ≠ 0 ∧
      (InitEventMode_ s trigMode).connEvent_ &&& EPOLLRDHUP ≠ 0 ∧
      (InitEventMode_ s trigMode).listenEvent_ &&& EPOLLRDHUP ≠ 0 ∧
      (InitEventMode_ s trigMode).listenEvent_ &&& EPOLLONESHOT = 0 ∧
      ((InitEventMode_ s trigMode).isET = true ↔
        (InitEventMode_ s trigMode).connEvent_ &&& EPOLLET ≠ 0) := by
  refine ⟨?_, ?_, ?_, ?_, ?_⟩
  · simp [InitEventMode_]; decide
  · simp [InitEventMode_]; decide
  · simp [InitEventMode_]; decide
  · simp [InitEventMode_]; decide
  · intro trigMode
    by_cases h0 : trigMode = 0
    · subst h0; simp [InitEventMode_]; decide
    · by_cases h1 : trigMode = 1
      · subst h1; simp [InitEventMode_]; decide
      · by_cases h2 : trigMode = 2
        · subst h2; simp [InitEventMode_]; decide
        · simp [InitEventMode_, h0, h1, h2]; decide

/-- The constructor on port 8080 yields `startedServer`, and one event on the
listening descriptor then yields `sampleServer`. -/
theorem sampleServer_reached :
    WebServer.ctor 8080 1 60000 false 0 sampleEnv = some startedServer ∧
    handleEvent startedServer { fd := 3, events := 1, accepts := [5] } = some sampleServer := by
  constructor <;> rfl

/-- The same start-up with the idle timeout at 0 yields `untimedServer`. -/
theorem untimedServer_reached :
    (WebServer.ctor 8080 1 0 false 0 sampleEnv).bind
      (fun s => handleEvent s { fd := 3, events := 1, accepts := [5] }) =
      some untimedServer := by
  rfl

/-- C1: in the dispatch of `Start`, an event on a descriptor other than the
listening one whose mask has `EPOLLRDHUP`, `EPOLLHUP` or `EPOLLERR` set is handled by
`CloseConn_` on that connection, whatever its other bits are: the only calls made
are `DelFd` and the close of the connection (no timer call, no read or write
handling), and no task is queued. -/
theorem hangup_wins (s : WebServer) (ev : ReadyEvent)
    (hfd : ev.fd ≠ s.listenFd_)
    (hmask : ev.events &&& EPOLLRDHUP ≠ 0 ∨ ev.events &&& EPOLLHUP ≠ 0 ∨
      ev.events &&& EPOLLERR ≠ 0)
    (hconn : usersCount s.users_ ev.fd > 0) :
    handleEvent s ev = some (CloseConn_ s ev.fd) ∧
    (CloseConn_ s ev.fd).trace =
      s.trace ++ [Action.DelFd (GetFd s ev.fd), Action.connClose (GetFd s ev.fd)] ∧
    (CloseConn_ s ev.fd).threadpool_ = s.threadpool_ := by
  refine ⟨?_, CloseConn_trace s ev.fd, ?_⟩
  · have hm := (land_hangup_ne_zero ev.events).2 hmask
    unfold handleEvent
    rw [if_neg hfd, if_pos hm, if_pos hconn]
  · simp [CloseConn_, Close_threadpool]

/-- Witness of C1: a mask with both `EPOLLRDHUP` and `EPOLLIN` on connection 5. -/
theorem hangup_wins_witness :
    handleEvent sampleServer { fd := 5, events := 0x2001, accepts := [] } =
      some (CloseConn_ sampleServer 5) ∧
    (CloseConn_ sampleServer 5).trace =
      sampleServer.trace ++ [Action.DelFd 5, Action.connClose 5] ∧
    (CloseConn_ sampleServer 5).threadpool_ = sampleServer.threadpool_ :=
  hangup_wins sampleServer { fd := 5, events := 0x2001, accepts := [] }
    (by decide) (Or.inl (by decide)) (by decide)

/-- C3: `OnRead_` closes the connection, without calling `process()` and without
re-arming, exactly when `ret <= 0` and `readErrno` is not `EAGAIN`; in every other
case it calls `process()` once and re-arms the descriptor once, with
`connEvent_ | EPOLLOUT` when `process()` returned true and `connEvent_ | EPOLLIN`
when it returned false. -/
theorem OnRead_transition (s : WebServer) (client : Int) (ret readErrno : Int)
    (processRet : Bool) :
    (OnRead_ s client ret readErrno processRet).trace =
      s.trace ++ Action.connRead (GetFd s client) ::
        (if ret ≤ 0 ∧ readErrno ≠ EAGAIN then
          [Action.DelFd (GetFd s client), Action.connClose (GetFd s client)]
        else
          [Action.connProcess (GetFd s client),
            Action.ModFd (GetFd s client)
              (s.connEvent_ ||| (if processRet then EPOLLOUT else EPOLLIN))]) := by
  unfold OnRead_
  by_cases h : ret ≤ 0 ∧ readErrno ≠ EAGAIN
  · simp only [if_pos h, CloseConn_trace]
    simp
  · simp only [if_neg h, OnProcess_trace]
    simp

/-- C2, as the code has it: after `client->write`, when no byte is left to write
the connection is handed to `OnProcess` if it is keep-alive and closed if it is not;
when bytes are left and the write failed (`ret < 0`) it is re-armed with
`connEvent_ | EPOLLOUT` on `EAGAIN` and closed on any other error. -/
theorem OnWrite_transition (s : WebServer) (client : Int) (ret writeErrno : Int)
    (toWriteBytes : Nat) (keepAlive processRet : Bool)
    (h : toWriteBytes = 0 ∨ ret < 0) :
    (OnWrite_ s client ret writeErrno toWriteBytes keepAlive processRet).trace =
      s.trace ++ Action.connWrite (GetFd s client) ::
        (if toWriteBytes = 0 then
          (if keepAlive then
            [Action.connProcess (GetFd s client),
              Action.ModFd (GetFd s client)
                (s.connEvent_ ||| (if processRet then EPOLLOUT else EPOLLIN))]
          else [Action.DelFd (GetFd s client), Action.connClose (GetFd s client)])
        else if writeErrno = EAGAIN then
          [Action.ModFd (GetFd s client) (s.connEvent_ ||| EPOLLOUT)]
        else [Action.DelFd (GetFd s client), Action.connClose (GetFd s client)]) := by
  unfold OnWrite_
  by_cases h0 : toWriteBytes = 0
  · cases keepAlive <;> simp [h0, CloseConn_trace, OnProcess_trace]
  · have hr : ret < 0 := h.resolve_left h0
    by_cases he : writeErrno = EAGAIN <;> simp [h0, hr, he, CloseConn_trace]

/-- Witness of C2: a write on connection 5 that fails with `EAGAIN` while 7 bytes
are left re-arms the descriptor for writing. -/
theorem OnWrite_transition_witness :
    (OnWrite_ sampleServer 5 (-1) 11 7 true true).trace =
      sampleServer.trace ++ [Action.connWrite 5, Action.ModFd 5 0xC0002004] :=
  OnWrite_transition sampleServer 5 (-1) 11 7 true true (Or.inr (by decide))

/-- Counterexample to C2 as stated: a write that sent everything on a connection
that is not keep-alive reports no error and the connection is closed; and a write
that returned 100 with 50 bytes left and no error closes the connection instead of
leaving it open. -/
theorem OnWrite_closes_without_error :
    (OnWrite_ sampleServer 5 100 0 0 false true).trace =
      sampleServer.trace ++ [Action.connWrite 5, Action.DelFd 5, Action.connClose 5] ∧
    (OnWrite_ sampleServer 5 100 0 50 true true).trace =
      sampleServer.trace ++ [Action.connWrite 5, Action.DelFd 5, Action.connClose 5] := by
  constructor <;> rfl

/-- Counterexample to C7 as stated: with the pool already signalled to shut down
and tasks 1 and 2 queued but not started, a worker that enters its loop runs task 1
and then task 2 before it exits. -/
theorem queued_tasks_run_after_shutdown :
    workerIter (ThreadPool.dtor { isClosed := false, tasks := [1, 2] } : Pool Nat) =
      ({ isClosed := true, tasks := [2] }, WorkerStep.ran 1) ∧
    workerLoop 3 (ThreadPool.dtor { isClosed := false, tasks := [1, 2] } : Pool Nat) [] =
      ({ isClosed := true, tasks := [] }, [1, 2], true) := by
  constructor <;> rfl

theorem workerLoop_closed {α : Type} (tasks done : List α) :
    workerLoop (tasks.length + 1) { isClosed := true, tasks := tasks } done =
      ({ isClosed := true, tasks := [] }, done ++ tasks, true) := by
  induction tasks generalizing done with
  | nil => simp [workerLoop, workerIter]
  | cons t rest ih =>
    have := ih (done ++ [t])
    simp [workerLoop, workerIter] at this ⊢
    exact this

/-- C7, as the code has it: once `~ThreadPool` has set `isClosed`, a worker leaves
its loop only when it finds the queue empty; the tasks queued at that moment are
executed first, all of them and in FIFO order. -/
theorem shutdown_drains_queue {α : Type} (p : Pool α) :
    workerLoop (p.tasks.length + 1) (ThreadPool.dtor p) [] =
      ({ isClosed := true, tasks := [] }, p.tasks, true) := by
  have := workerLoop_closed p.tasks ([] : List α)
  simpa [ThreadPool.dtor] using this

/-! ### The close path and the connection table -/

theorem usersFind_usersSet (users : List (Int × HttpConn)) (fd : Int) (c : HttpConn) :
    usersFind (usersSet users fd c) fd = some c := by
  induction users with
  | nil => simp [usersSet, usersFind]
  | cons e rest ih =>
    obtain ⟨k, d⟩ := e
    by_cases hk : k = fd <;> simp [usersSet, usersFind, hk, ih]

theorem usersSet_keys (users : List (Int × HttpConn)) (fd : Int) (c d : HttpConn)
    (h : usersFind users fd = some d) :
    (usersSet users fd c).map Prod.fst = users.map Prod.fst := by
  induction users with
  | nil => simp [usersFind] at h
  | cons e rest ih =>
    obtain ⟨k, d0⟩ := e
    by_cases hk : k = fd
    · simp [usersSet, hk]
    · simp [usersFind, hk] at h
      simp [usersSet, hk, ih h]

theorem regStep_nodup (fds : List Int) (a : Action) (h : fds.Nodup) :
    (regStep fds a).Nodup := by
  cases a <;> simp only [regStep] <;> try exact h
  · rename_i fd _
    by_cases hm : fd ∈ fds
    · simpa [hm] using h
    · simpa [hm] using h
  · exact h.erase _

theorem foldl_regStep_nodup (tr : List Action) (fds : List Int) (h : fds.Nodup) :
    (tr.foldl regStep fds).Nodup := by
  induction tr generalizing fds with
  | nil => simpa using h
  | cons a rest ih => exact ih _ (regStep_nodup fds a h)

theorem registeredFds_nodup (tr : List Action) : (registeredFds tr).Nodup :=
  foldl_regStep_nodup tr [] List.nodup_nil

theorem registeredFds_after_close (tr : List Action) (fd : Int) :
    fd ∉ registeredFds (tr ++ [Action.DelFd fd, Action.connClose fd]) := by
  have hn := registeredFds_nodup tr
  simp only [registeredFds, List.foldl_append, List.foldl_cons, List.foldl_nil, regStep]
  exact fun hm => (List.Nodup.mem_erase_iff hn).1 hm |>.1 rfl

theorem timerNodes_after_close (tr : List Action) (fd : Int) :
    timerNodes (tr ++ [Action.DelFd fd, Action.connClose fd]) = timerNodes tr := by
  simp [timerNodes, List.foldl_append]

theorem Close_users (s : WebServer) (client : Int) (c : HttpConn)
    (h : usersFind s.users_ client = some c) :
    (HttpConn.Close s client).users_.map Prod.fst = s.users_.map Prod.fst ∧
    usersFind (HttpConn.Close s client).users_ client =
      some { fd_ := c.fd_, isClose_ := true } := by
  unfold HttpConn.Close
  rw [h]
  by_cases hc : c.isClose_ = true
  · have hcc : c = { fd_ := c.fd_, isClose_ := true } := by
      cases c
      simp_all
    simp only [if_pos hc]
    exact ⟨rfl, by rw [emit_users, h, ← hcc]⟩
  · simp only [if_neg hc, emit_users]
    exact ⟨usersSet_keys _ _ _ _ h, usersFind_usersSet _ _ _⟩

/-- Counterexample to C4 as stated: after `CloseConn_` on the connection of
descriptor 5 the table `users_` still has the entry of 5 and still has size 1, and
the timer still holds the node of 5. -/
theorem CloseConn_keeps_entry_and_timer :
    usersCount (CloseConn_ sampleServer 5).users_ 5 = 1 ∧
    (CloseConn_ sampleServer 5).users_.length = sampleServer.users_.length ∧
    5 ∈ timerNodes (CloseConn_ sampleServer 5).trace := by
  refine ⟨by rfl, by rfl, by decide⟩

/-- C4, as the code has it: for a connection in the table, `CloseConn_` makes two
calls, `DelFd` on its descriptor and then `HttpConn::Close`; afterwards the
descriptor is not registered with the reactor and the connection is closed, while
the entry stays in `users_` (same keys, hence same size) and the timer keeps the
nodes it had. -/
theorem CloseConn_effect (s : WebServer) (client : Int) (c : HttpConn)
    (h : usersFind s.users_ client = some c) :
    (CloseConn_ s client).trace =
      s.trace ++ [Action.DelFd c.fd_, Action.connClose c.fd_] ∧
    c.fd_ ∉ registeredFds (CloseConn_ s client).trace ∧
    usersFind (CloseConn_ s client).users_ client = some { fd_ := c.fd_, isClose_ := true } ∧
    (CloseConn_ s client).users_.map Prod.fst = s.users_.map Prod.fst ∧
    (CloseConn_ s client).users_.length = s.users_.length ∧
    timerNodes (CloseConn_ s client).trace = timerNodes s.trace := by
  have hfd : GetFd s client = c.fd_ := by simp [GetFd, h]
  have htr := CloseConn_trace s client
  rw [hfd] at htr
  have hu := Close_users (s.emit (Action.DelFd (GetFd s client))) client c (by simpa using h)
  have hkeys : (CloseConn_ s client).users_.map Prod.fst = s.users_.map Prod.fst := by
    simpa [CloseConn_] using hu.1
  refine ⟨htr, ?_, ?_, hkeys, ?_, ?_⟩
  · rw [htr]; exact registeredFds_after_close _ _
  · simpa [CloseConn_] using hu.2
  · simpa using congrArg List.length hkeys
  · rw [htr]; exact timerNodes_after_close _ _

/-- Witness of C4 on the sample state. -/
theorem CloseConn_effect_witness :
    (CloseConn_ sampleServer 5).trace =
      sampleServer.trace ++ [Action.DelFd 5, Action.connClose 5] ∧
    (5 : Int) ∉ registeredFds (CloseConn_ sampleServer 5).trace ∧
    usersFind (CloseConn_ sampleServer 5).users_ 5 = some { fd_ := 5, isClose_ := true } ∧
    (CloseConn_ sampleServer 5).users_.map Prod.fst = sampleServer.users_.map Prod.fst ∧
    (CloseConn_ sampleServer 5).users_.length = sampleServer.users_.length ∧
    timerNodes (CloseConn_ sampleServer 5).trace = timerNodes sampleServer.trace :=
  CloseConn_effect sampleServer 5 { fd_ := 5, isClose_ := false } rfl

/-! ### Accepting at capacity -/

theorem AddClient_userCount (s : WebServer) (fd : Int) :
    (AddClient_ s fd).userCount = s.userCount + 1 := by
  unfold AddClient_ HttpConn.init
  by_cases h : s.timeoutMS_ > 0 <;> simp [h]

theorem AddClient_listenEvent (s : WebServer) (fd : Int) :
    (AddClient_ s fd).listenEvent_ = s.listenEvent_ := by
  unfold AddClient_ HttpConn.init
  by_cases h : s.timeoutMS_ > 0 <;> simp [h, WebServer.emit]

theorem DealListen_userCount_le (accepts : List Int) (s : WebServer)
    (h : s.userCount ≤ MAX_FD) : (DealListen_ s accepts).userCount ≤ MAX_FD := by
  induction accepts generalizing s with
  | nil => simpa [DealListen_] using h
  | cons fd rest ih =>
    simp only [DealListen_, emit_userCount]
    by_cases hfd : fd ≤ 0
    · simpa [hfd] using h
    · by_cases hfull : s.userCount ≥ MAX_FD
      · simpa [hfd, hfull, SendError_] using h
      · have hlt : s.userCount + 1 ≤ MAX_FD := by omega
        have hadd : (AddClient_ (s.emit (Action.accept fd)) fd).userCount ≤ MAX_FD := by
          rw [AddClient_userCount]; simpa using hlt
        simp only [if_neg hfd, if_neg hfull]
        split
        · exact ih _ hadd
        · exact hadd

/-- C6: when `accept` returns a descriptor `fd > 0` while `userCount >= MAX_FD`,
`DealListen_` sends "Server busy!" on `fd`, closes it and returns: no `AddClient_`
(table, registrations, timer and task queue are as before) and no further `accept`.
`AddClient_` is reached only when `userCount < MAX_FD`, where it adds one user, so
`DealListen_` never takes `userCount` above `MAX_FD`. -/
theorem DealListen_capacity (s : WebServer) (fd : Int) (rest : List Int) (hfd : 0 < fd) :
    (MAX_FD ≤ s.userCount →
      DealListen_ s (fd :: rest) =
        { s with trace := s.trace ++
            [Action.accept fd, Action.send fd "Server busy!", Action.close fd] }) ∧
    (s.userCount < MAX_FD →
      DealListen_ s (fd :: rest) =
        (if s.listenEvent_ &&& EPOLLET ≠ 0 then
          DealListen_ (AddClient_ (s.emit (Action.accept fd)) fd) rest
        else AddClient_ (s.emit (Action.accept fd)) fd) ∧
      (AddClient_ (s.emit (Action.accept fd)) fd).userCount = s.userCount + 1) ∧
    (s.userCount ≤ MAX_FD →
      ∀ accepts, (DealListen_ s accepts).userCount ≤ MAX_FD) := by
  have hpos : ¬ fd ≤ 0 := by omega
  refine ⟨?_, ?_, fun h accepts => DealListen_userCount_le accepts s h⟩
  · intro hfull
    have hge : s.userCount ≥ MAX_FD := hfull
    simp [DealListen_, hpos, hge, SendError_, WebServer.emit]
  · intro hlt
    have hnot : ¬ s.userCount ≥ MAX_FD := by omega
    refine ⟨?_, by rw [AddClient_userCount]; simp⟩
    simp only [DealListen_, emit_userCount, if_neg hpos, if_neg hnot, AddClient_listenEvent]
    rfl

/-- Witness of C6: at capacity the accepted descriptor 6 is refused and 7 is never
accepted; below capacity the counter stays within `MAX_FD`. -/
theorem DealListen_capacity_witness :
    DealListen_ fullServer [6, 7] =
      { fullServer with trace := fullServer.trace ++
          [Action.accept 6, Action.send 6 "Server busy!", Action.close 6] } ∧
    (DealListen_ sampleServer [6, 7]).userCount ≤ MAX_FD :=
  ⟨(DealListen_capacity fullServer 6 [7] (by decide)).1 (by decide),
    (DealListen_capacity sampleServer 6 [7] (by decide)).2.2 (by decide) [6, 7]⟩

/-! ### Port range -/

theorem StartLoop_closed (s : WebServer) (timeMS : Int) (ticks : List Tick)
    (h : s.isClose_ = true) : StartLoop s timeMS ticks = some s := by
  cases ticks with
  | nil => rfl
  | cons t rest => simp [StartLoop, h]

theorem InitSocket_inrange (s : WebServer) (env : SockEnv)
    (h : ¬ (s.port_ > 65535 ∨ s.port_ < 1024)) (ok : Bool) (r : WebServer)
    (hs : InitSocket_ s env = some (ok, r)) :
    r.isClose_ = s.isClose_ ∧
      ∃ ext, r.trace = s.trace ++ Action.socket env.socketRet :: ext := by
  unfold InitSocket_ at hs
  rw [if_neg h] at hs
  simp only [] at hs
  split_ifs at hs
  all_goals simp only [Option.some.injEq, Prod.mk.injEq, reduceCtorEq] at hs
  all_goals obtain ⟨_, hr⟩ := hs
  all_goals rw [← hr]
  all_goals constructor
  all_goals simp only [emit_isClose, emit_trace, List.append_assoc, List.singleton_append,
    List.cons_append, List.nil_append]
  all_goals exact ⟨_, rfl⟩

theorem InitSocket_success (s : WebServer) (env : SockEnv)
    (h : ¬ (s.port_ > 65535 ∨ s.port_ < 1024))
    (h1 : 0 < env.socketRet) (h2 : 0 ≤ env.lingerRet) (h3 : env.reuseRet ≠ -1)
    (h4 : 0 ≤ env.bindRet) (h5 : 0 ≤ env.listenRet) (h6 : env.addFdRet = true) :
    ∃ r, InitSocket_ s env = some (true, r) := by
  unfold InitSocket_
  rw [if_neg h]
  have g1 : ¬ env.socketRet < 0 := by omega
  have g2 : ¬ env.lingerRet < 0 := by omega
  have g4 : ¬ env.bindRet < 0 := by omega
  have g5 : ¬ env.listenRet < 0 := by omega
  simp [WebServer.emit, g1, g2, h3, g4, g5, h6, h1]

/-- C8: with a port below 1024 or above 65535, `InitSocket_` returns false without
making any call, the constructor sets `isClose_` and `Start` then returns at once
(state and trace unchanged for every input); with a port in `[1024, 65535]` the
start-up always gets as far as calling `socket`, and succeeds when every call
does. -/
theorem port_boundary (port trigMode timeoutMS : Int) (OptLinger : Bool) (listenFd0 : Int)
    (env : SockEnv) :
    ((port < 1024 ∨ port > 65535) →
      (∀ s : WebServer, s.port_ = port → InitSocket_ s env = some (false, s)) ∧
      ∃ s, WebServer.ctor port trigMode timeoutMS OptLinger listenFd0 env = some s ∧
        s.isClose_ = true ∧ s.trace = [] ∧ ∀ ticks, Start s ticks = some s) ∧
    ((1024 ≤ port ∧ port ≤ 65535) →
      (∀ s, WebServer.ctor port trigMode timeoutMS OptLinger listenFd0 env = some s →
        s.trace.head? = some (Action.socket env.socketRet)) ∧
      (0 < env.socketRet → 0 ≤ env.lingerRet → env.reuseRet ≠ -1 → 0 ≤ env.bindRet →
        0 ≤ env.listenRet → env.addFdRet = true →
        ∃ s, WebServer.ctor port trigMode timeoutMS OptLinger listenFd0 env = some s ∧
          s.isClose_ = false)) := by
  have hport : ∀ s : WebServer, (InitEventMode_ s trigMode).port_ = s.port_ := by
    intro s
    unfold InitEventMode_
    split_ifs <;> rfl
  have htrace : ∀ s : WebServer, (InitEventMode_ s trigMode).trace = s.trace := by
    intro s
    unfold InitEventMode_
    split_ifs <;> rfl
  have hclose : ∀ s : WebServer, (InitEventMode_ s trigMode).isClose_ = s.isClose_ := by
    intro s
    unfold InitEventMode_
    split_ifs <;> rfl
  unfold WebServer.ctor
  simp only []
  generalize hs1 : InitEventMode_
    { port_ := port, openLinger_ := OptLinger, timeoutMS_ := timeoutMS, isClose_ := false,
      listenFd_ := listenFd0, listenEvent_ := 0, connEvent_ := 0,
      threadpool_ := ThreadPool.init, users_ := [], userCount := 0, isET := false,
      trace := [] } trigMode = s1
  have hp1 : s1.port_ = port := by rw [← hs1, hport]
  have ht1 : s1.trace = [] := by rw [← hs1, htrace]
  have hc1 : s1.isClose_ = false := by rw [← hs1, hclose]
  constructor
  · intro hout
    have hinit : ∀ s : WebServer, s.port_ = port → InitSocket_ s env = some (false, s) := by
      intro s hs
      have hc : s.port_ > 65535 ∨ s.port_ < 1024 := by omega
      simp [InitSocket_, hc]
    refine ⟨hinit, ?_⟩
    rw [hinit s1 hp1]
    exact ⟨_, rfl, rfl, ht1, fun ticks => StartLoop_closed _ _ _ rfl⟩
  · intro hin
    have hc : ¬ (s1.port_ > 65535 ∨ s1.port_ < 1024) := by omega
    constructor
    · intro s hs
      cases hr : InitSocket_ s1 env with
      | none => simp [hr] at hs
      | some res =>
        obtain ⟨ok, r⟩ := res
        obtain ⟨_, ext, hext⟩ := InitSocket_inrange s1 env hc ok r hr
        rw [hr] at hs
        simp only [Option.some.injEq] at hs
        rw [← hs]
        cases ok <;> simp [hext, ht1]
    · intro h1 h2 h3 h4 h5 h6
      obtain ⟨r, hr⟩ := InitSocket_success s1 env hc h1 h2 h3 h4 h5 h6
      rw [hr]
      refine ⟨r, by simp, ?_⟩
      rw [(InitSocket_inrange s1 env hc true r hr).1, hc1]

/-- Witness of C8: ports 1023 and 65536 fail before any call and `Start` does
nothing, port 8080 starts up. -/
theorem port_boundary_witness :
    (∃ s, WebServer.ctor 1023 3 60000 false 0 sampleEnv = some s ∧
      s.isClose_ = true ∧ s.trace = [] ∧ ∀ ticks, Start s ticks = some s) ∧
    (∃ s, WebServer.ctor 65536 3 60000 false 0 sampleEnv = some s ∧
      s.isClose_ = true ∧ s.trace = [] ∧ ∀ ticks, Start s ticks = some s) ∧
    (∃ s, WebServer.ctor 8080 3 60000 false 0 sampleEnv = some s ∧ s.isClose_ = false) :=
  ⟨((port_boundary 1023 3 60000 false 0 sampleEnv).1 (Or.inl (by decide))).2,
    ((port_boundary 65536 3 60000 false 0 sampleEnv).1 (Or.inr (by decide))).2,
    ((port_boundary 8080 3 60000 false 0 sampleEnv).2 ⟨by decide, by decide⟩).2
      (by decide) (by decide) (by decide) (by decide) (by decide) rfl⟩

/-! ### Executions -/

theorem Good.append {t : Int} {l1 l2 : List Action} (h1 : Good t l1) (h2 : Good t l2) :
    Good t (l1 ++ l2) := by
  induction h1 with
  | nil => simpa using h2
  | cons a ext ha _ ih => exact Good.cons a _ ha ih
  | close fd ext _ ih => exact Good.close fd _ ih
  | refuse fd info ext hfd _ ih => exact Good.refuse fd info _ hfd ih

theorem Good.single {t : Int} {a : Action} (h : Allowed t a) : Good t [a] :=
  Good.cons a [] h Good.nil

theorem Good.untimed {t : Int} {ext : List Action} (h : Good t ext) (ht : t ≤ 0) :
    ∀ a ∈ ext, isTimerOp a = false ∧ isBoundedWait a = false := by
  induction h with
  | nil => simp
  | cons a ext ha _ ih =>
    intro b hb
    rcases List.mem_cons.1 hb with rfl | hb
    · exact ha.2.2.2 ht
    · exact ih b hb
  | close fd ext _ ih =>
    intro b hb
    rcases List.mem_cons.1 hb with rfl | hb
    · exact ⟨rfl, rfl⟩
    · rcases List.mem_cons.1 hb with rfl | hb
      · exact ⟨rfl, rfl⟩
      · exact ih b hb
  | refuse fd info ext _ _ ih =>
    intro b hb
    rcases List.mem_cons.1 hb with rfl | hb
    · exact ⟨rfl, rfl⟩
    · rcases List.mem_cons.1 hb with rfl | hb
      · exact ⟨rfl, rfl⟩
      · rcases List.mem_cons.1 hb with rfl | hb
        · exact ⟨rfl, rfl⟩
        · exact ih b hb

theorem Ext.refl (s : WebServer) : Ext s s :=
  ⟨rfl, [], by simp, Good.nil⟩

theorem Ext.trans {s r q : WebServer} (h1 : Ext s r) (h2 : Ext r q) : Ext s q := by
  obtain ⟨ht1, e1, he1, hg1⟩ := h1
  obtain ⟨ht2, e2, he2, hg2⟩ := h2
  refine ⟨ht2.trans ht1, e1 ++ e2, ?_, hg1.append (ht1 ▸ hg2)⟩
  rw [he2, he1, List.append_assoc]

theorem Ext.emit (s : WebServer) (a : Action) (h : Allowed s.timeoutMS_ a) :
    Ext s (s.emit a) :=
  ⟨rfl, [a], rfl, Good.single h⟩

theorem Close_timeoutMS (s : WebServer) (client : Int) :
    (HttpConn.Close s client).timeoutMS_ = s.timeoutMS_ := by
  unfold HttpConn.Close
  cases h : usersFind s.users_ client with
  | none => simp
  | some c => by_cases hc : c.isClose_ = true <;> simp [hc]

theorem ext_CloseConn (s : WebServer) (client : Int) : Ext s (CloseConn_ s client) :=
  ⟨by simp [CloseConn_, Close_timeoutMS], _, CloseConn_trace s client,
    Good.close _ [] Good.nil⟩

theorem ext_AddClient (s : WebServer) (fd : Int) : Ext s (AddClient_ s fd) := by
  unfold AddClient_ HttpConn.init
  by_cases h : s.timeoutMS_ > 0
  · refine ⟨by simp [h], [Action.connInit fd, Action.timerAdd fd s.timeoutMS_,
      Action.AddFd fd (EPOLLIN ||| s.connEvent_), Action.fcntlNonblock fd], by simp [h], ?_⟩
    refine Good.cons _ _ ?_ (Good.cons _ _ ?_ (Good.cons _ _ ?_ (Good.single ?_)))
    all_goals simp [Allowed, isConnClose, isRawClose, isDelFd, isTimerOp, isBoundedWait]
    omega
  · refine ⟨by simp [h], [Action.connInit fd,
      Action.AddFd fd (EPOLLIN ||| s.connEvent_), Action.fcntlNonblock fd], by simp [h], ?_⟩
    refine Good.cons _ _ ?_ (Good.cons _ _ ?_ (Good.single ?_))
    all_goals simp [Allowed, isConnClose, isRawClose, isDelFd, isTimerOp, isBoundedWait]

theorem ext_DealListen (accepts : List Int) (s : WebServer) :
    Ext s (DealListen_ s accepts) := by
  induction accepts generalizing s with
  | nil =>
    exact Ext.emit s _ (by simp [Allowed, isConnClose, isRawClose, isDelFd, isTimerOp, isBoundedWait])
  | cons fd rest ih =>
    have h1 : Ext s (s.emit (Action.accept fd)) :=
      Ext.emit s _ (by simp [Allowed, isConnClose, isRawClose, isDelFd, isTimerOp, isBoundedWait])
    simp only [DealListen_]
    split_ifs with hfd
    · exact h1
    · exact ⟨rfl, [Action.accept fd, Action.send fd "Server busy!", Action.close fd],
        by simp [SendError_], Good.refuse fd _ [] (by omega) Good.nil⟩
    · exact (h1.trans (ext_AddClient _ _)).trans (ih _)
    · exact h1.trans (ext_AddClient _ _)

theorem ext_ExtentTime (s : WebServer) (client : Int) : Ext s (ExtentTime_ s client) := by
  unfold ExtentTime_
  by_cases h : s.timeoutMS_ > 0
  · rw [if_pos h]
    exact Ext.emit s _ (by simp [Allowed, isConnClose, isRawClose, isDelFd, isTimerOp, isBoundedWait]; omega)
  · rw [if_neg h]
    exact Ext.refl s

theorem ext_DealRead (s : WebServer) (client : Int) : Ext s (DealRead_ s client) := by
  have h := ext_ExtentTime s client
  refine h.trans ⟨rfl, [Action.AddTask (WorkItem.onRead client)], rfl, Good.single ?_⟩
  simp [Allowed, isConnClose, isRawClose, isDelFd, isTimerOp, isBoundedWait]

theorem ext_DealWrite (s : WebServer) (client : Int) : Ext s (DealWrite_ s client) := by
  have h := ext_ExtentTime s client
  refine h.trans ⟨rfl, [Action.AddTask (WorkItem.onWrite client)], rfl, Good.single ?_⟩
  simp [Allowed, isConnClose, isRawClose, isDelFd, isTimerOp, isBoundedWait]

theorem ext_OnProcess (s : WebServer) (client : Int) (processRet : Bool) :
    Ext s (OnProcess s client processRet) := by
  unfold OnProcess
  cases processRet <;>
    refine (Ext.emit s _ ?_).trans (Ext.emit _ _ ?_) <;>
    simp [Allowed, isConnClose, isRawClose, isDelFd, isTimerOp, isBoundedWait]

theorem ext_OnRead (s : WebServer) (client : Int) (ret readErrno : Int) (processRet : Bool) :
    Ext s (OnRead_ s client ret readErrno processRet) := by
  have h1 : Ext s (s.emit (Action.connRead (GetFd s client))) :=
    Ext.emit s _ (by simp [Allowed, isConnClose, isRawClose, isDelFd, isTimerOp, isBoundedWait])
  unfold OnRead_
  split_ifs
  · exact h1.trans (ext_CloseConn _ _)
  · exact h1.trans (ext_OnProcess _ _ _)

theorem ext_OnWrite (s : WebServer) (client : Int) (ret writeErrno : Int) (toWriteBytes : Nat)
    (keepAlive processRet : Bool) :
    Ext s (OnWrite_ s client ret writeErrno toWriteBytes keepAlive processRet) := by
  have h1 : Ext s (s.emit (Action.connWrite (GetFd s client))) :=
    Ext.emit s _ (by simp [Allowed, isConnClose, isRawClose, isDelFd, isTimerOp, isBoundedWait])
  unfold OnWrite_
  split_ifs
  · exact h1.trans (ext_OnProcess _ _ _)
  · exact h1.trans (ext_CloseConn _ _)
  · exact h1.trans (Ext.emit _ _ (by simp [Allowed, isConnClose, isRawClose, isDelFd, isTimerOp, isBoundedWait]))
  · exact h1.trans (ext_CloseConn _ _)
  · exact h1.trans (ext_CloseConn _ _)

theorem ext_workerStep (s : WebServer) (r : ConnResult) : Ext s (workerStep s r) := by
  unfold workerStep workerIter
  cases hq : s.threadpool_.tasks with
  | nil => by_cases hc : s.threadpool_.isClosed = true <;> simp [hc] <;> exact Ext.refl s
  | cons task rest =>
    have hset : ∀ p : Pool WorkItem, Ext s { s with threadpool_ := p } :=
      fun p => ⟨rfl, [], by simp, Good.nil⟩
    cases task with
    | onRead client => exact (hset _).trans (ext_OnRead _ _ _ _ _)
    | onWrite client => exact (hset _).trans (ext_OnWrite _ _ _ _ _ _ _)

theorem ext_GetNextTick (expired : List Int) (s : WebServer) (h : s.timeoutMS_ > 0) :
    Ext s (GetNextTick s expired) := by
  have hfold : ∀ (l : List Int) (st : WebServer), st.timeoutMS_ > 0 →
      Ext st (l.foldl (fun st fd =>
        if fd ∈ timerNodes st.trace then CloseConn_ (st.emit (Action.timerExpire fd)) fd
        else st) st) := by
    intro l
    induction l with
    | nil => intro st _; exact Ext.refl st
    | cons fd rest ih =>
      intro st hst
      simp only [List.foldl_cons]
      split_ifs
      · have h1 : Ext st (CloseConn_ (st.emit (Action.timerExpire fd)) fd) :=
          (Ext.emit st _ (by
            simp [Allowed, isConnClose, isRawClose, isDelFd, isTimerOp, isBoundedWait]; omega)).trans
            (ext_CloseConn _ _)
        exact h1.trans (ih _ (by rw [h1.1]; exact hst))
      · exact ih _ hst
  unfold GetNextTick
  have h0 : Ext s (s.emit Action.GetNextTick) :=
    Ext.emit s _ (by simp [Allowed, isConnClose, isRawClose, isDelFd, isTimerOp, isBoundedWait]; omega)
  exact h0.trans (hfold _ _ (by simpa using h))

theorem ext_handleEvent (s r : WebServer) (ev : ReadyEvent)
    (h : handleEvent s ev = some r) : Ext s r := by
  unfold handleEvent at h
  split_ifs at h <;> simp only [Option.some.injEq, reduceCtorEq] at h <;> subst h
  · exact ext_DealListen _ _
  · exact ext_CloseConn _ _
  · exact ext_DealRead _ _
  · exact ext_DealWrite _ _
  · exact Ext.refl _

theorem ext_handleEvents (evs : List ReadyEvent) (s r : WebServer)
    (h : handleEvents s evs = some r) : Ext s r := by
  induction evs generalizing s with
  | nil =>
    simp only [handleEvents, Option.some.injEq] at h
    subst h
    exact Ext.refl _
  | cons ev rest ih =>
    simp only [handleEvents] at h
    cases h1 : handleEvent s ev with
    | none => simp [h1] at h
    | some s1 =>
      rw [h1] at h
      exact (ext_handleEvent _ _ _ h1).trans (ih _ h)

theorem ext_loopBody (s r : WebServer) (timeMS timeMS1 : Int) (t : Tick)
    (hw : s.timeoutMS_ ≤ 0 → timeMS = -1)
    (h : loopBody s timeMS t = some (r, timeMS1)) :
    Ext s r ∧ (s.timeoutMS_ ≤ 0 → timeMS1 = -1) := by
  unfold loopBody at h
  by_cases hpos : s.timeoutMS_ > 0
  · simp only [if_pos hpos] at h
    cases h1 : handleEvents ((GetNextTick s t.expired).emit (Action.Wait t.nextTick)) t.ready with
    | none => simp [h1] at h
    | some s2 =>
      rw [h1] at h
      simp only [Option.some.injEq, Prod.mk.injEq] at h
      obtain ⟨rfl, rfl⟩ := h
      have hg := ext_GetNextTick t.expired s hpos
      have hwait : Ext (GetNextTick s t.expired)
          ((GetNextTick s t.expired).emit (Action.Wait t.nextTick)) :=
        Ext.emit _ _ (by
          rw [hg.1]; simp [Allowed, isConnClose, isRawClose, isDelFd, isTimerOp, isBoundedWait]; omega)
      exact ⟨(hg.trans hwait).trans (ext_handleEvents _ _ _ h1), fun hle => by omega⟩
  · simp only [if_neg hpos] at h
    have hle : s.timeoutMS_ ≤ 0 := by omega
    cases h1 : handleEvents (s.emit (Action.Wait timeMS)) t.ready with
    | none => simp [h1] at h
    | some s2 =>
      rw [h1] at h
      simp only [Option.some.injEq, Prod.mk.injEq] at h
      obtain ⟨rfl, rfl⟩ := h
      have hwait : Ext s (s.emit (Action.Wait timeMS)) :=
        Ext.emit _ _ (by
          simp [Allowed, isConnClose, isRawClose, isDelFd, isTimerOp, isBoundedWait]; intro _; exact hw hle)
      exact ⟨hwait.trans (ext_handleEvents _ _ _ h1), hw⟩

theorem ext_runSteps (steps : List Step) (s r : WebServer) (timeMS timeMS1 : Int)
    (hw : s.timeoutMS_ ≤ 0 → timeMS = -1)
    (h : runSteps s timeMS steps = some (r, timeMS1)) :
    Ext s r ∧ (s.timeoutMS_ ≤ 0 → timeMS1 = -1) := by
  induction steps generalizing s timeMS with
  | nil =>
    simp only [runSteps, Option.some.injEq, Prod.mk.injEq] at h
    obtain ⟨rfl, rfl⟩ := h
    exact ⟨Ext.refl _, hw⟩
  | cons st rest ih =>
    cases st with
    | loop t =>
      simp only [runSteps] at h
      by_cases hc : s.isClose_ = true
      · rw [if_pos hc] at h
        exact ih _ _ hw h
      · rw [if_neg hc] at h
        cases h1 : loopBody s timeMS t with
        | none => simp [h1] at h
        | some res =>
          obtain ⟨s1, t1⟩ := res
          rw [h1] at h
          obtain ⟨he, hw1⟩ := ext_loopBody _ _ _ _ _ hw h1
          obtain ⟨he2, hw2⟩ := ih s1 t1 (by rw [he.1]; exact hw1) h
          exact ⟨he.trans he2, fun hle => hw2 (by rw [he.1]; exact hle)⟩
    | work r0 =>
      simp only [runSteps] at h
      have he := ext_workerStep s r0
      obtain ⟨he2, hw2⟩ := ih (workerStep s r0) timeMS (by rw [he.1]; exact hw) h
      exact ⟨he.trans he2, fun hle => hw2 (by rw [he.1]; exact hle)⟩

theorem ext_StartLoop (ticks : List Tick) (s r : WebServer) (timeMS : Int)
    (hw : s.timeoutMS_ ≤ 0 → timeMS = -1)
    (h : StartLoop s timeMS ticks = some r) : Ext s r := by
  induction ticks generalizing s timeMS with
  | nil =>
    simp only [StartLoop, Option.some.injEq] at h
    subst h
    exact Ext.refl _
  | cons t rest ih =>
    simp only [StartLoop] at h
    by_cases hc : s.isClose_ = true
    · simp only [if_pos hc, Option.some.injEq] at h
      subst h
      exact Ext.refl _
    · rw [if_neg hc] at h
      cases h1 : loopBody s timeMS t with
      | none => simp [h1] at h
      | some res =>
        obtain ⟨s1, t1⟩ := res
        rw [h1] at h
        obtain ⟨he, hw1⟩ := ext_loopBody _ _ _ _ _ hw h1
        exact he.trans (ih s1 t1 (by rw [he.1]; exact hw1) h)

/-- C9: with `timeoutMS_ <= 0` the engine performs no timer operation: `AddClient_`
adds no timer node, `ExtentTime_` does nothing, and along every execution (loop
iterations of `Start` interleaved with worker tasks) `GetNextTick` is never called,
no expiry callback runs and every `Wait` gets `-1`. With `timeoutMS_ > 0`,
`AddClient_` adds exactly one timer node, for the new descriptor and with timeout
`timeoutMS_`. -/
theorem timeout_disabled (s : WebServer) :
    (s.timeoutMS_ ≤ 0 →
      (∀ fd, (AddClient_ s fd).trace = s.trace ++
        [Action.connInit fd, Action.AddFd fd (EPOLLIN ||| s.connEvent_),
          Action.fcntlNonblock fd]) ∧
      (∀ client, ExtentTime_ s client = s) ∧
      (∀ steps r timeMS, runSteps s (-1) steps = some (r, timeMS) →
        timeMS = -1 ∧ ∃ ext, r.trace = s.trace ++ ext ∧
          ∀ a ∈ ext, isTimerOp a = false ∧ isBoundedWait a = false) ∧
      (∀ ticks r, Start s ticks = some r →
        ∃ ext, r.trace = s.trace ++ ext ∧
          ∀ a ∈ ext, isTimerOp a = false ∧ isBoundedWait a = false)) ∧
    (s.timeoutMS_ > 0 →
      ∀ fd, (AddClient_ s fd).trace = s.trace ++
        [Action.connInit fd, Action.timerAdd fd s.timeoutMS_,
          Action.AddFd fd (EPOLLIN ||| s.connEvent_), Action.fcntlNonblock fd]) := by
  constructor
  · intro hle
    have hnot : ¬ s.timeoutMS_ > 0 := by omega
    refine ⟨?_, ?_, ?_, ?_⟩
    · intro fd
      simp [AddClient_, HttpConn.init, hnot]
    · intro client
      simp [ExtentTime_, hnot]
    · intro steps r timeMS hrun
      obtain ⟨⟨_, ext, hext, hg⟩, hw⟩ := ext_runSteps steps s r (-1) timeMS (fun _ => rfl) hrun
      exact ⟨hw hle, ext, hext, hg.untimed hle⟩
    · intro ticks r hrun
      obtain ⟨_, ext, hext, hg⟩ := ext_StartLoop ticks s r (-1) (fun _ => rfl) hrun
      exact ⟨ext, hext, hg.untimed hle⟩
  · intro hpos fd
    simp [AddClient_, HttpConn.init, hpos]

/-- Witness of C9: the sample execution on a server with timeout 0 ends with
`timeMS = -1` and adds no timer call; on the server with a 60 s timeout,
`AddClient_` adds the timer node of the new descriptor. -/
theorem timeout_disabled_witness :
    runSteps untimedServer (-1) sampleSteps = some (untimedFinal, -1) ∧
    ((-1 : Int) = -1 ∧ ∃ ext, untimedFinal.trace = untimedServer.trace ++ ext ∧
      ∀ a ∈ ext, isTimerOp a = false ∧ isBoundedWait a = false) ∧
    (AddClient_ sampleServer 6).trace = sampleServer.trace ++
      [Action.connInit 6, Action.timerAdd 6 60000, Action.AddFd 6 0xC0002001,
        Action.fcntlNonblock 6] :=
  ⟨rfl,
    ((timeout_disabled untimedServer).1 (by decide)).2.2.1 sampleSteps untimedFinal (-1) rfl,
    (timeout_disabled sampleServer).2 (by decide) 6⟩

/-! ### Closing and registration under interleaving -/

theorem Allowed.closes {t : Int} {a : Action} (h : Allowed t a) (fds : List Int) :
    closesOneOf fds a = false := by
  cases a <;> simp_all [Allowed, closesOneOf, isConnClose, isRawClose]

theorem Allowed.pend {t : Int} {a : Action} (h : Allowed t a) (pend : List Int) :
    pendStep pend a = pend := by
  cases a <;> simp_all [Allowed, pendStep, isConnClose, isDelFd]

theorem Allowed.noHeadClose {t : Int} {a : Action} (h : Allowed t a) (l : List Action) :
    headClose (a :: l) = [] := by
  cases a <;> simp_all [Allowed, Webserver.headClose, isConnClose]

theorem Allowed.regStepSame {t : Int} {a : Action} (h : Allowed t a)
    (hd : isDispatcherCall a = false) (fds : List Int) : regStep fds a = fds := by
  cases a <;> simp_all [Allowed, Webserver.regStep, isDelFd, isDispatcherCall]

theorem Good.headCloseNil {t : Int} {l : List Action} (h : Good t l) : headClose l = [] := by
  cases h with
  | nil => rfl
  | cons a ext ha _ => exact ha.noHeadClose ext
  | close fd ext _ => rfl
  | refuse fd info ext _ _ => rfl

theorem mem_regStep {fds : List Int} {a : Action} {x : Int} (h : x ∈ regStep fds a) :
    x ∈ fds ∨ ∃ ev, a = Action.AddFd x ev := by
  cases a <;> simp only [regStep] at h <;> try exact Or.inl h
  · rename_i fd ev
    by_cases hm : fd ∈ fds
    · rw [if_pos hm] at h
      exact Or.inl h
    · rw [if_neg hm] at h
      rcases List.mem_cons.1 h with rfl | h
      · exact Or.inr ⟨ev, rfl⟩
      · exact Or.inl h
  · exact Or.inl (List.mem_of_mem_erase h)

theorem count_pendingOf (x : Int) (ws1 ws2 : List (List Action)) (w : List Action) :
    (pendingOf (ws1 ++ w :: ws2)).count x =
      (pendingOf ws1).count x + (headClose w).count x + (pendingOf ws2).count x := by
  induction ws1 with
  | nil => simp [pendingOf]
  | cons v rest ih => simp [pendingOf, ih]; omega

theorem DispatcherRest.shrink {t : Int} {fds fds1 : List Int} {d : List Action}
    (hsub : ∀ x, x ∈ fds1 → x ∈ fds) (h : DispatcherRest t fds d) :
    DispatcherRest t fds1 d := by
  rcases h with hg | hc | ⟨fd, info, rest, heq, hfd, hg⟩ | ⟨fd, rest, heq, hfd, hg⟩
  · exact Or.inl hg
  · exact Or.inr (Or.inl hc)
  · exact Or.inr (Or.inr (Or.inl ⟨fd, info, rest, heq, fun hm => hfd (hsub _ hm), hg⟩))
  · exact Or.inr (Or.inr (Or.inr ⟨fd, rest, heq, fun hm => hfd (hsub _ hm), hg⟩))

theorem headClose_connClose (fd : Int) (l : List Action) :
    headClose (Action.connClose fd :: l) = [fd] := rfl

theorem headClose_DelFd (fd : Int) (l : List Action) :
    headClose (Action.DelFd fd :: l) = [] := rfl

theorem headClose_accept (fd : Int) (l : List Action) :
    headClose (Action.accept fd :: l) = [] := rfl

theorem headClose_send (fd : Int) (info : String) (l : List Action) :
    headClose (Action.send fd info :: l) = [] := rfl

theorem headClose_close (fd : Int) (l : List Action) :
    headClose (Action.close fd :: l) = [] := rfl

theorem step_close_start {fds pend : List Int} {fd : Int} (hnd : fds.Nodup)
    (hpr : ∀ x ∈ pend, x ∉ fds) : ∀ x ∈ fd :: pend, x ∉ fds.erase fd := by
  intro x hx hm
  rcases List.mem_cons.1 hx with rfl | hx
  · exact ((List.Nodup.mem_erase_iff hnd).1 hm).1 rfl
  · exact hpr x hx (List.mem_of_mem_erase hm)

theorem step_close_end {fds pend : List Int} {fd : Int} {c : Nat}
    (hcnt : 1 + c ≤ pend.count fd) (hpr : ∀ x ∈ pend, x ∉ fds) :
    closesOneOf fds (Action.connClose fd) = false ∧
      ∀ x ∈ pend.erase fd, x ∉ fds := by
  have hmem : fd ∈ pend := List.one_le_count_iff.1 (by omega)
  refine ⟨by simp [closesOneOf, hpr fd hmem], ?_⟩
  intro x hx
  exact hpr x (List.mem_of_mem_erase hx)

theorem interleave_safe (t : Int) {d : List Action} {ws : List (List Action)}
    {tr : List Action} (h : Interleave d ws tr) :
    ∀ (fds pend : List Int), fds.Nodup → DispatcherRest t fds d →
      (∀ w ∈ ws, WorkerRest t w) →
      (∀ x, (headClose d).count x + (pendingOf ws).count x ≤ pend.count x) →
      (∀ x ∈ pend, x ∉ fds) → scanEnv fds pend tr = true → scanClose fds tr = false := by
  induction h with
  | stop d ws => intros; rfl
  | disp a d ws tr _ ih =>
    intro fds pend hnd hd hw hcnt hpr henv
    simp only [scanEnv, Bool.and_eq_true] at henv
    obtain ⟨he, henv⟩ := henv
    simp only [scanClose, Bool.or_eq_false_iff]
    rcases hd with hg | ⟨fd, rest, heq, hg⟩ | ⟨fd, info, rest, heq, hfd, hg⟩ |
      ⟨fd, rest, heq, hfd, hg⟩
    · cases hg with
      | cons _ _ ha hg1 =>
        refine ⟨ha.closes fds, ih _ _ (regStep_nodup fds a hnd) (Or.inl hg1) hw ?_ ?_ henv⟩
        · intro x
          have := hcnt x
          rw [ha.noHeadClose] at this
          rw [ha.pend, hg1.headCloseNil]
          exact this
        · rw [ha.pend]
          intro x hx hm
          rcases mem_regStep hm with h1 | ⟨ev, rfl⟩
          · exact hpr x hx h1
          · simp [envOK] at he
            exact he hx
      | close fd ext hg1 =>
        refine ⟨rfl, ih (fds.erase fd) (fd :: pend) (hnd.erase fd)
          (Or.inr (Or.inl ⟨fd, ext, rfl, hg1⟩)) hw ?_ (step_close_start hnd hpr) henv⟩
        intro x
        have := hcnt x
        simp only [headClose_connClose, headClose_DelFd, List.count_nil, Nat.zero_add] at this
        by_cases hx : x = fd
        · subst hx
          simp only [headClose_connClose, headClose_DelFd, List.count_cons_self, List.count_nil]
          omega
        · have hne : fd ≠ x := fun h => hx h.symm
          simp only [headClose_connClose, headClose_DelFd, List.count_cons_of_ne hx, List.count_nil, Nat.zero_add]
          exact this
      | refuse fd info ext hpos hg1 =>
        have hfd : fd ∉ fds := by
          simp only [envOK, Bool.or_eq_true, decide_eq_true_eq] at he
          rcases he with h1 | h1
          · omega
          · exact h1
        exact ⟨rfl, ih fds pend hnd (Or.inr (Or.inr (Or.inl ⟨fd, info, ext, rfl, hfd, hg1⟩)))
          hw (fun x => by simpa [headClose_accept, headClose_send, headClose_close] using hcnt x) hpr henv⟩
    · injection heq with h1 h2
      subst h1 h2
      have hc := hcnt fd
      simp only [headClose_connClose, headClose_DelFd, List.count_cons_self, List.count_nil] at hc
      have hc1 : 1 + (pendingOf ws).count fd ≤ pend.count fd := by omega
      obtain ⟨hsafe, hpr1⟩ := step_close_end hc1 hpr
      refine ⟨hsafe, ih fds (pend.erase fd) hnd (Or.inl hg) hw ?_ hpr1 henv⟩
      intro x
      rw [hg.headCloseNil]
      by_cases hx : x = fd
      · subst hx
        simp only [List.count_nil, Nat.zero_add, List.count_erase_self]
        omega
      · have := hcnt x
        simp only [headClose_connClose, headClose_DelFd, List.count_cons_of_ne hx, List.count_nil, Nat.zero_add] at this
        simp only [List.count_nil, Nat.zero_add, List.count_erase_of_ne hx]
        exact this
    · injection heq with h1 h2
      subst h1 h2
      exact ⟨rfl, ih fds pend hnd (Or.inr (Or.inr (Or.inr ⟨fd, rest, rfl, hfd, hg⟩))) hw
        (fun x => by simpa [headClose_accept, headClose_send, headClose_close] using hcnt x) hpr henv⟩
    · injection heq with h1 h2
      subst h1 h2
      refine ⟨by simp [closesOneOf, hfd], ih fds pend hnd (Or.inl hg) hw ?_ hpr henv⟩
      intro x
      rw [hg.headCloseNil]
      simpa [headClose_close] using hcnt x
  | work a w d ws1 ws2 tr _ ih =>
    intro fds pend hnd hd hw hcnt hpr henv
    simp only [scanEnv, Bool.and_eq_true] at henv
    obtain ⟨he, henv⟩ := henv
    simp only [scanClose, Bool.or_eq_false_iff]
    obtain ⟨hshape, hnodisp⟩ := hw (a :: w) (by simp)
    have hnd1 : ∀ b ∈ w, isDispatcherCall b = false :=
      fun b hb => hnodisp b (List.mem_cons_of_mem _ hb)
    have hrest : ∀ v, (Good t v ∨ ∃ fd rest, v = Action.connClose fd :: rest ∧ Good t rest) →
        (∀ b ∈ v, isDispatcherCall b = false) → ∀ u ∈ ws1 ++ v :: ws2, WorkerRest t u := by
      intro v hv hvd u hu
      rcases List.mem_append.1 hu with h1 | h1
      · exact hw u (List.mem_append_left _ h1)
      · rcases List.mem_cons.1 h1 with rfl | h1
        · exact ⟨hv, hvd⟩
        · exact hw u (List.mem_append_right _ (List.mem_cons_of_mem _ h1))
    rcases hshape with hg | ⟨fd, rest, heq, hg⟩
    · cases hg with
      | cons _ _ ha hg1 =>
        have hreg := ha.regStepSame (hnodisp a (List.mem_cons_self _ _)) fds
        rw [hreg, ha.pend] at henv
        refine ⟨ha.closes fds, ?_⟩
        rw [hreg]
        refine ih fds pend hnd hd (hrest w (Or.inl hg1) hnd1) ?_ hpr henv
        intro x
        have := hcnt x
        rw [count_pendingOf, ha.noHeadClose] at this
        rw [count_pendingOf, hg1.headCloseNil]
        exact this
      | close fd ext hg1 =>
        refine ⟨rfl, ih (fds.erase fd) (fd :: pend) (hnd.erase fd)
          (hd.shrink (fun x hx => List.mem_of_mem_erase hx))
          (hrest _ (Or.inr ⟨fd, ext, rfl, hg1⟩) hnd1) ?_ (step_close_start hnd hpr) henv⟩
        intro x
        have := hcnt x
        rw [count_pendingOf] at this
        simp only [headClose_connClose, headClose_DelFd, List.count_nil, Nat.add_zero] at this
        rw [count_pendingOf]
        by_cases hx : x = fd
        · subst hx
          simp only [headClose_connClose, headClose_DelFd, List.count_cons_self, List.count_nil]
          omega
        · simp only [headClose_connClose, headClose_DelFd, List.count_cons_of_ne hx, List.count_nil, Nat.add_zero]
          exact this
      | refuse fd info ext hpos hg1 =>
        have := hnodisp (Action.accept fd) (List.mem_cons_self _ _)
        simp [isDispatcherCall] at this
    · injection heq with h1 h2
      subst h1 h2
      have hc := hcnt fd
      rw [count_pendingOf] at hc
      simp only [headClose_connClose, headClose_DelFd, List.count_cons_self, List.count_nil] at hc
      have hc1 : 1 + ((headClose d).count fd + (pendingOf ws1).count fd +
          (pendingOf ws2).count fd) ≤ pend.count fd := by omega
      obtain ⟨hsafe, hpr1⟩ := step_close_end hc1 hpr
      refine ⟨hsafe, ih fds (pend.erase fd) hnd hd (hrest w (Or.inl hg) hnd1) ?_ hpr1 henv⟩
      intro x
      rw [count_pendingOf, hg.headCloseNil]
      by_cases hx : x = fd
      · subst hx
        simp only [List.count_nil, Nat.add_zero, List.count_erase_self]
        omega
      · have := hcnt x
        rw [count_pendingOf] at this
        simp only [headClose_connClose, headClose_DelFd, List.count_cons_of_ne hx, List.count_nil, Nat.add_zero] at this
        simp only [List.count_nil, Nat.add_zero, List.count_erase_of_ne hx]
        exact this

theorem Good.mono {t : Int} {l : List Action} (h : Good t l) : Good 1 l := by
  induction h with
  | nil => exact Good.nil
  | cons a ext ha _ ih =>
    exact Good.cons a ext ⟨ha.1, ha.2.1, ha.2.2.1, fun h1 => absurd h1 (by decide)⟩ ih
  | close fd ext _ ih => exact Good.close fd ext ih
  | refuse fd info ext hfd _ ih => exact Good.refuse fd info ext hfd ih

theorem Ext.goodExt {s r : WebServer} {ext : List Action} (h : Ext s r)
    (htr : r.trace = s.trace ++ ext) : Good 1 ext := by
  obtain ⟨_, ext1, h1, hg⟩ := h
  have : ext = ext1 := List.append_cancel_left (htr.symm.trans h1)
  rw [this]
  exact hg.mono

theorem DispatcherCalls.goodCalls {d : List Action} (h : DispatcherCalls d) : Good 1 d := by
  induction h with
  | nil => exact Good.nil
  | tick s expired ext rest hpos htr _ ih =>
    exact ((ext_GetNextTick expired s hpos).goodExt htr).append ih
  | wait timeMS rest _ ih =>
    exact Good.cons _ _
      (by simp [Allowed, isConnClose, isRawClose, isDelFd, isTimerOp, isBoundedWait]) ih
  | event s r ev ext rest hev htr _ ih =>
    exact ((ext_handleEvent s r ev hev).goodExt htr).append ih

theorem WorkerExt.same (s : WebServer) : WorkerExt s s :=
  ⟨[], by simp, Good.nil, by simp⟩

theorem WorkerExt.andThen {s r q : WebServer} (h1 : WorkerExt s r) (h2 : WorkerExt r q) :
    WorkerExt s q := by
  obtain ⟨e1, he1, hg1, hd1⟩ := h1
  obtain ⟨e2, he2, hg2, hd2⟩ := h2
  refine ⟨e1 ++ e2, by rw [he2, he1, List.append_assoc], hg1.append hg2, ?_⟩
  intro a ha
  rcases List.mem_append.1 ha with h | h
  · exact hd1 a h
  · exact hd2 a h

theorem WorkerExt.emitCall (s : WebServer) (a : Action) (h : Allowed 1 a)
    (hd : isDispatcherCall a = false) : WorkerExt s (s.emit a) :=
  ⟨[a], rfl, Good.single h, by simpa using hd⟩

theorem WorkerExt.closeConn (s : WebServer) (client : Int) :
    WorkerExt s (CloseConn_ s client) :=
  ⟨_, CloseConn_trace s client, Good.close _ [] Good.nil, by simp [isDispatcherCall]⟩

theorem WorkerExt.process (s : WebServer) (client : Int) (processRet : Bool) :
    WorkerExt s (OnProcess s client processRet) := by
  unfold OnProcess
  cases processRet <;>
    refine (WorkerExt.emitCall s _ ?_ ?_).andThen (WorkerExt.emitCall _ _ ?_ ?_) <;>
    simp [Allowed, isConnClose, isRawClose, isDelFd, isTimerOp, isBoundedWait,
      isDispatcherCall]

theorem WorkerExt.read (s : WebServer) (client : Int) (ret readErrno : Int)
    (processRet : Bool) : WorkerExt s (OnRead_ s client ret readErrno processRet) := by
  have h1 : WorkerExt s (s.emit (Action.connRead (GetFd s client))) :=
    WorkerExt.emitCall s _
      (by simp [Allowed, isConnClose, isRawClose, isDelFd, isTimerOp, isBoundedWait]) rfl
  unfold OnRead_
  split_ifs
  · exact h1.andThen (WorkerExt.closeConn _ _)
  · exact h1.andThen (WorkerExt.process _ _ _)

theorem WorkerExt.write (s : WebServer) (client : Int) (ret writeErrno : Int)
    (toWriteBytes : Nat) (keepAlive processRet : Bool) :
    WorkerExt s (OnWrite_ s client ret writeErrno toWriteBytes keepAlive processRet) := by
  have h1 : WorkerExt s (s.emit (Action.connWrite (GetFd s client))) :=
    WorkerExt.emitCall s _
      (by simp [Allowed, isConnClose, isRawClose, isDelFd, isTimerOp, isBoundedWait]) rfl
  unfold OnWrite_
  split_ifs
  · exact h1.andThen (WorkerExt.process _ _ _)
  · exact h1.andThen (WorkerExt.closeConn _ _)
  · exact h1.andThen (WorkerExt.emitCall _ _
      (by simp [Allowed, isConnClose, isRawClose, isDelFd, isTimerOp, isBoundedWait]) rfl)
  · exact h1.andThen (WorkerExt.closeConn _ _)
  · exact h1.andThen (WorkerExt.closeConn _ _)

theorem WorkerExt.step (s : WebServer) (r : ConnResult) : WorkerExt s (workerStep s r) := by
  unfold workerStep workerIter
  cases hq : s.threadpool_.tasks with
  | nil => by_cases hc : s.threadpool_.isClosed = true <;> simp [hc] <;> exact WorkerExt.same s
  | cons task rest =>
    have hset : ∀ p : Pool WorkItem, WorkerExt s { s with threadpool_ := p } :=
      fun p => ⟨[], by simp, Good.nil, by simp⟩
    cases task with
    | onRead client => exact (hset _).andThen (WorkerExt.read _ _ _ _ _)
    | onWrite client => exact (hset _).andThen (WorkerExt.write _ _ _ _ _ _ _)

theorem WorkerCalls.rest {w : List Action} (h : WorkerCalls w) : WorkerRest 1 w := by
  obtain ⟨s, r, htr⟩ := h
  obtain ⟨ext, hext, hg, hd⟩ := WorkerExt.step s r
  have : w = ext := List.append_cancel_left (htr.symm.trans hext)
  rw [this]
  exact ⟨Or.inl hg, hd⟩

theorem pendingOf_rest (ws : List (List Action)) (h : ∀ w ∈ ws, WorkerCalls w) :
    pendingOf ws = [] := by
  induction ws with
  | nil => rfl
  | cons w rest ih =>
    have hw := (WorkerCalls.rest (h w (List.mem_cons_self _ _))).1
    have hh : headClose w = [] := by
      rcases hw with hg | ⟨fd, rest1, heq, hg⟩
      · exact hg.headCloseNil
      · exfalso
        obtain ⟨s, r, htr⟩ := h w (List.mem_cons_self _ _)
        obtain ⟨ext, hext, hg1, _⟩ := WorkerExt.step s r
        have hwe : w = ext := List.append_cancel_left (htr.symm.trans hext)
        have := hg1.headCloseNil
        rw [← hwe, heq] at this
        simp [headClose_connClose] at this
    simp [pendingOf, hh, ih (fun v hv => h v (List.mem_cons_of_mem _ hv))]

theorem scanClose_append (tr1 tr2 : List Action) (fds : List Int) :
    scanClose fds (tr1 ++ tr2) =
      (scanClose fds tr1 || scanClose (tr1.foldl regStep fds) tr2) := by
  induction tr1 generalizing fds with
  | nil => simp [scanClose]
  | cons a rest ih => simp [scanClose, ih, Bool.or_assoc]

theorem InitSocket_scanClose (s r : WebServer) (env : SockEnv) (ok : Bool)
    (ht : s.trace = []) (hs : InitSocket_ s env = some (ok, r)) :
    scanClose [] r.trace = false := by
  unfold InitSocket_ at hs
  by_cases h : s.port_ > 65535 ∨ s.port_ < 1024
  · rw [if_pos h] at hs
    simp only [Option.some.injEq, Prod.mk.injEq] at hs
    rw [← hs.2, ht]
    rfl
  · rw [if_neg h] at hs
    simp only [] at hs
    split_ifs at hs
    all_goals simp only [Option.some.injEq, Prod.mk.injEq, reduceCtorEq] at hs
    all_goals obtain ⟨_, hr⟩ := hs
    all_goals have hr2 := congrArg WebServer.trace hr
    all_goals simp only [emit_trace, ht, List.nil_append, List.append_assoc,
      List.singleton_append, List.cons_append] at hr2
    all_goals rw [← hr2]
    all_goals first
      | (simp [scanClose, closesOneOf, regStep]; done)
      | (exfalso; simp_all)

theorem ctor_scanClose (port trigMode timeoutMS : Int) (OptLinger : Bool) (listenFd0 : Int)
    (env : SockEnv) (s : WebServer)
    (h : WebServer.ctor port trigMode timeoutMS OptLinger listenFd0 env = some s) :
    scanClose [] s.trace = false := by
  unfold WebServer.ctor at h
  simp only [] at h
  generalize hs1 : InitEventMode_
    { port_ := port, openLinger_ := OptLinger, timeoutMS_ := timeoutMS, isClose_ := false,
      listenFd_ := listenFd0, listenEvent_ := 0, connEvent_ := 0,
      threadpool_ := ThreadPool.init, users_ := [], userCount := 0, isET := false,
      trace := [] } trigMode = s1 at h
  have ht1 : s1.trace = [] := by
    rw [← hs1]
    unfold InitEventMode_
    split_ifs <;> rfl
  cases hr : InitSocket_ s1 env with
  | none => simp [hr] at h
  | some res =>
    obtain ⟨ok, r⟩ := res
    rw [hr] at h
    simp only [Option.some.injEq] at h
    have hrt : s.trace = r.trace := by
      rw [← h]
      cases ok <;> rfl
    rw [hrt]
    exact InitSocket_scanClose s1 r env ok ht1 hr

theorem DispatcherCalls.appendCalls {d1 d2 : List Action} (h1 : DispatcherCalls d1)
    (h2 : DispatcherCalls d2) : DispatcherCalls (d1 ++ d2) := by
  induction h1 with
  | nil => simpa using h2
  | tick s expired ext rest hpos htr _ ih =>
    rw [List.append_assoc]
    exact DispatcherCalls.tick s expired ext _ hpos htr ih
  | wait timeMS rest _ ih => exact DispatcherCalls.wait timeMS _ ih
  | event s r ev ext rest hev htr _ ih =>
    rw [List.append_assoc]
    exact DispatcherCalls.event s r ev ext _ hev htr ih

theorem calls_handleEvents (evs : List ReadyEvent) (s r : WebServer)
    (h : handleEvents s evs = some r) :
    ∃ ext, r.trace = s.trace ++ ext ∧ DispatcherCalls ext := by
  induction evs generalizing s with
  | nil =>
    simp only [handleEvents, Option.some.injEq] at h
    subst h
    exact ⟨[], by simp, DispatcherCalls.nil⟩
  | cons ev rest ih =>
    simp only [handleEvents] at h
    cases h1 : handleEvent s ev with
    | none => simp [h1] at h
    | some s1 =>
      rw [h1] at h
      obtain ⟨_, e1, he1, _⟩ := ext_handleEvent s s1 ev h1
      obtain ⟨e2, he2, hc2⟩ := ih s1 h
      exact ⟨e1 ++ e2, by rw [he2, he1, List.append_assoc],
        DispatcherCalls.event s s1 ev e1 e2 h1 he1 hc2⟩

theorem calls_loopBody (s r : WebServer) (timeMS timeMS1 : Int) (t : Tick)
    (h : loopBody s timeMS t = some (r, timeMS1)) :
    ∃ ext, r.trace = s.trace ++ ext ∧ DispatcherCalls ext := by
  unfold loopBody at h
  by_cases hpos : s.timeoutMS_ > 0
  · simp only [if_pos hpos] at h
    cases h1 : handleEvents ((GetNextTick s t.expired).emit (Action.Wait t.nextTick)) t.ready with
    | none => simp [h1] at h
    | some s2 =>
      rw [h1] at h
      simp only [Option.some.injEq, Prod.mk.injEq] at h
      obtain ⟨rfl, _⟩ := h
      obtain ⟨_, e0, he0, _⟩ := ext_GetNextTick t.expired s hpos
      obtain ⟨e2, he2, hc2⟩ := calls_handleEvents _ _ _ h1
      refine ⟨e0 ++ Action.Wait t.nextTick :: e2, ?_,
        DispatcherCalls.tick s t.expired e0 _ hpos he0 (DispatcherCalls.wait _ _ hc2)⟩
      rw [he2, emit_trace, he0]
      simp
  · simp only [if_neg hpos] at h
    cases h1 : handleEvents (s.emit (Action.Wait timeMS)) t.ready with
    | none => simp [h1] at h
    | some s2 =>
      rw [h1] at h
      simp only [Option.some.injEq, Prod.mk.injEq] at h
      obtain ⟨rfl, _⟩ := h
      obtain ⟨e2, he2, hc2⟩ := calls_handleEvents _ _ _ h1
      refine ⟨Action.Wait timeMS :: e2, ?_, DispatcherCalls.wait _ _ hc2⟩
      rw [he2, emit_trace]
      simp

theorem calls_StartLoop (ticks : List Tick) (s r : WebServer) (timeMS : Int)
    (h : StartLoop s timeMS ticks = some r) :
    ∃ ext, r.trace = s.trace ++ ext ∧ DispatcherCalls ext := by
  induction ticks generalizing s timeMS with
  | nil =>
    simp only [StartLoop, Option.some.injEq] at h
    subst h
    exact ⟨[], by simp, DispatcherCalls.nil⟩
  | cons t rest ih =>
    simp only [StartLoop] at h
    by_cases hc : s.isClose_ = true
    · simp only [if_pos hc, Option.some.injEq] at h
      subst h
      exact ⟨[], by simp, DispatcherCalls.nil⟩
    · rw [if_neg hc] at h
      cases h1 : loopBody s timeMS t with
      | none => simp [h1] at h
      | some res =>
        obtain ⟨s1, t1⟩ := res
        rw [h1] at h
        obtain ⟨e1, he1, hc1⟩ := calls_loopBody _ _ _ _ _ h1
        obtain ⟨e2, he2, hc2⟩ := ih s1 t1 h
        exact ⟨e1 ++ e2, by rw [he2, he1, List.append_assoc], hc1.appendCalls hc2⟩

/-- The calls `Start` makes over any inputs are dispatcher calls. -/
theorem DispatcherCalls.of_Start (s : WebServer) (ticks : List Tick) (ext : List Action)
    (h : (Start s ticks).map (fun r => r.trace) = some (s.trace ++ ext)) :
    DispatcherCalls ext := by
  cases hr : Start s ticks with
  | none => simp [hr] at h
  | some r =>
    rw [hr] at h
    simp only [Option.map_some', Option.some.injEq] at h
    obtain ⟨e, he, hc⟩ := calls_StartLoop ticks s r (-1) hr
    have : ext = e := List.append_cancel_left (h.symm.trans he)
    rw [this]
    exact hc

/-- Split of a worker task on its close path: `workerReadEof` followed by
`client->Close()` is the whole task `OnRead_` with a failed read. -/
theorem workerReadEof_then_Close (s : WebServer) (client : Int) (rest : List WorkItem)
    (r : ConnResult) (hq : s.threadpool_.tasks = WorkItem.onRead client :: rest)
    (hret : r.ret ≤ 0 ∧ r.err ≠ EAGAIN) :
    workerStep s r = HttpConn.Close (workerReadEof s) client := by
  unfold workerStep workerReadEof workerIter
  rw [hq]
  simp only [OnRead_, if_pos hret, CloseConn_, CloseConn_DelFd]
  rfl

/-- Counterexample to C5 as stated, in two executions. The started server has
registered its listening descriptor 3 with `AddFd`, and the destructor closes 3
with no `DelFd` before it. And a connection descriptor is closed while registered
when a worker's `CloseConn_` is overtaken, between its `DelFd` and its
`client->Close()`, by the expiry callback and the accept of a new connection on the
same descriptor number: up to the last call of `raceTrace` nothing is closed while
registered, and the worker's `client->Close()` then closes the registered 5. -/
theorem closed_while_registered :
    (WebServer.ctor 8080 1 60000 false 0 sampleEnv = some startedServer ∧
      (WebServer.dtor startedServer).trace =
        [Action.socket 3, Action.setsockopt 3 "SO_LINGER" 0 0,
          Action.setsockopt 3 "SO_REUSEADDR" 1 0, Action.bind 3 8080 0,
          Action.listen 3 6 0, Action.AddFd 3 0x2001, Action.fcntlNonblock 3,
          Action.close 3] ∧
      closedWhileRegistered (WebServer.dtor startedServer).trace = true) ∧
    ((((WebServer.ctor 8080 1 1 false 0 sampleEnv).bind
          (fun s => runSteps s (-1) raceSteps)).bind
          (fun p => loopBody (workerReadEof p.1) p.2 raceTick)).map
        (fun p => (HttpConn.Close p.1 5).trace) = some raceTrace ∧
      closedWhileRegistered raceTrace.dropLast = false ∧
      closedWhileRegistered raceTrace = true) := by
  refine ⟨⟨rfl, rfl, rfl⟩, rfl, rfl, rfl⟩

/-- C5, as the code has it: along every execution of a constructed server up to
the destructor, with the calls of the dispatcher and of the worker tasks
interleaved in any order, no descriptor is closed while it is registered with the
reactor, whether by `close` (`InitSocket_`, `SendError_`) or by `HttpConn::Close`
(`CloseConn_`), provided that `accept` never returns a descriptor that is
registered and that no descriptor is registered while a `CloseConn_` on the same
descriptor number is between its `DelFd` and its `client->Close()`. -/
theorem no_close_while_registered (port trigMode timeoutMS : Int) (OptLinger : Bool)
    (listenFd0 : Int) (env : SockEnv) (s : WebServer) (d : List Action)
    (ws : List (List Action)) (tr : List Action)
    (hctor : WebServer.ctor port trigMode timeoutMS OptLinger listenFd0 env = some s)
    (hd : DispatcherCalls d) (hw : ∀ w ∈ ws, WorkerCalls w)
    (hmix : Interleave d ws tr)
    (henv : scanEnv (registeredFds s.trace) [] tr = true) :
    closedWhileRegistered (s.trace ++ tr) = false := by
  have hsafe := interleave_safe 1 hmix (registeredFds s.trace) []
    (registeredFds_nodup s.trace) (Or.inl hd.goodCalls) (fun w hm => (hw w hm).rest)
    (by
      intro x
      rw [hd.goodCalls.headCloseNil, pendingOf_rest ws hw]
      simp)
    (by simp) henv
  unfold closedWhileRegistered
  rw [scanClose_append, ctor_scanClose _ _ _ _ _ _ _ hctor]
  exact hsafe

theorem Interleave.first (a : Action) (w d : List Action) (ws : List (List Action))
    (tr : List Action) (h : Interleave d (w :: ws) tr) :
    Interleave d ((a :: w) :: ws) (a :: tr) :=
  Interleave.work a w d [] ws tr h

theorem Interleave.second (a : Action) (v w d : List Action) (ws : List (List Action))
    (tr : List Action) (h : Interleave d (v :: w :: ws) tr) :
    Interleave d (v :: (a :: w) :: ws) (a :: tr) :=
  Interleave.work a w d [v] ws tr h

/-- Witness of C5: the interleaved execution `witnessTrace` of the started server. -/
theorem no_close_while_registered_witness :
    DispatcherCalls witnessDispatcher ∧
    Interleave witnessDispatcher witnessWorkers witnessTrace ∧
    scanEnv (registeredFds startedServer.trace) [] witnessTrace = true ∧
    closedWhileRegistered (startedServer.trace ++ witnessTrace) = false :=
  have hd : DispatcherCalls witnessDispatcher :=
    DispatcherCalls.of_Start startedServer witnessTicks witnessDispatcher rfl
  have hw : ∀ w ∈ witnessWorkers, WorkerCalls w := by
    intro w hm
    simp only [witnessWorkers, List.mem_cons, List.mem_singleton, List.not_mem_nil,
      or_false] at hm
    rcases hm with rfl | rfl
    · exact ⟨DealRead_ sampleServer 5,
        { ret := 120, err := 0, toWriteBytes := 0, keepAlive := false, processRet := true },
        rfl⟩
    · exact ⟨DealWrite_ sampleServer 5,
        { ret := -1, err := 104, toWriteBytes := 300, keepAlive := false,
          processRet := true }, rfl⟩
  have hmix : Interleave witnessDispatcher witnessWorkers witnessTrace := by
    unfold witnessDispatcher witnessWorkers witnessTrace
    repeat first
      | exact Interleave.stop _ _
      | refine Interleave.disp _ _ _ _ ?_
      | refine Interleave.first _ _ _ _ _ ?_
      | refine Interleave.second _ _ _ _ _ _ ?_
  ⟨hd, hmix, rfl,
    no_close_while_registered 8080 1 60000 false 0 sampleEnv startedServer witnessDispatcher
      witnessWorkers witnessTrace rfl hd hw hmix rfl⟩

end Webserver
